import Mathlib

/-!
Verification of the structured-JSON-recovery pipeline of the 9to5-scout
retrofit project.

The pipeline lives in two Python classes:
  * `CloudflareAIDirect` in `jobspy/cloudflare_ai/cloudflare_direct_fixed.py`
    (namespace `CFDirect` below), and
  * `CloudflareAI` in `jobspy/cloudflare_ai/__init__.py`
    (namespace `CFWorker` below).

The shallow embedding models text as `List Char` (wrapped in `String` at the
interfaces), Python dicts as ordered association lists, JSON values as the
inductive `Json`, Python exceptions as the `Except PyExc` monad, and the
network collaborator `generate_text` as an oracle `Nat → Except PyExc
(Option String)` giving the outcome of each regeneration attempt.  All
definitions are fuel-based or structural so that every concrete run can be
evaluated inside the kernel.  Python `float` values are modelled as
rationals (`ℚ`); the inputs exercised here are exactly representable, and
no claim depends on rounding.

Braces inside string literals are written with the escapes `\x7b` and
`\x7d` throughout.
-/

/-! ## Basic character and string utilities -/

/-- Characters treated as whitespace by Python's `str.strip` (ASCII part). -/
def isPyWs (c : Char) : Bool :=
  c = ' ' || c = '\t' || c = '\n' || c = '\r' || c = '\x0b' || c = '\x0c'

/-- Whitespace accepted between JSON tokens by `json.loads`. -/
def isJsonWs (c : Char) : Bool :=
  c = ' ' || c = '\t' || c = '\n' || c = '\r'

/-- `str.strip` from the right. -/
def pyStripRight (s : List Char) : List Char :=
  (s.reverse.dropWhile isPyWs).reverse

/-- `str.strip` from the left. -/
def pyStripLeft (s : List Char) : List Char :=
  s.dropWhile isPyWs

/-- Python `str.strip()` on character lists. -/
def pyStrip (s : List Char) : List Char :=
  pyStripLeft (pyStripRight s)

/-- Python substring containment `p in s` on character lists. -/
def containsSub (p : List Char) : List Char → Bool
  | [] => p.isPrefixOf []
  | c :: cs => p.isPrefixOf (c :: cs) || containsSub p cs

/-- Python `str.lower` restricted to the ASCII range used by the sources. -/
def lowerStr (s : List Char) : List Char :=
  s.map Char.toLower

/-- Python `str.endswith` on character lists. -/
def endsWithL (suf s : List Char) : Bool :=
  suf.reverse.isPrefixOf s.reverse

/-- Python `str.split(sep)` for a single separator character. -/
def splitOnChar (sep : Char) : List Char → List (List Char)
  | [] => [[]]
  | c :: cs =>
    let rest := splitOnChar sep cs
    if c = sep then [] :: rest
    else match rest with
      | [] => [[c]]
      | r :: rs => (c :: r) :: rs

/-- `'\n'.join(...)` on character lists. -/
def joinLines : List (List Char) → List Char
  | [] => []
  | [l] => l
  | l :: ls => l ++ '\n' :: joinLines ls

/-! ## Removal of all occurrences of a literal pattern

Models Python's `re.sub(pat, "", s)` for a literal pattern `pat`: scan left
to right, delete each non-overlapping occurrence, continue scanning after
the deleted occurrence.  Implemented with fuel so it reduces in the kernel.
-/

def removeAllAux (p : List Char) : Nat → List Char → List Char
  | 0, s => s
  | _ + 1, [] => []
  | fuel + 1, c :: cs =>
    if p ≠ [] ∧ p.isPrefixOf (c :: cs) then
      removeAllAux p fuel ((c :: cs).drop p.length)
    else
      c :: removeAllAux p fuel cs

/-- Delete every occurrence of the literal pattern `p` from `s`. -/
def removeAll (p s : List Char) : List Char :=
  removeAllAux p s.length s

/-- Decidable side condition: no nonempty suffix of `A` is prefix-compatible
with the pattern `p`, so a left-to-right scan for `p` can never match while
still inside `A`, whatever follows `A`. -/
def sepCheck (p A : List Char) : Bool :=
  A.tails.all fun t => t.isEmpty || (!(t.isPrefixOf p) && !(p.isPrefixOf t))

/-- The content of a fenced block: no triple backtick occurs in it. -/
def TripleFree (s : List Char) : Prop :=
  ¬ (['`', '`', '`'] <:+: s)

instance (s : List Char) : Decidable (TripleFree s) := by
  unfold TripleFree
  infer_instance

/-! ## JSON values and a model of Python `json.loads`

Python dicts are ordered association lists.  `json.loads` is modelled by a
fuel-indexed recursive-descent parser over `List Char` following the JSON
grammar that `json.loads` accepts in its default strict mode: double-quoted
strings with escape sequences and no raw control characters, numbers
without leading zeros, objects, arrays, `true`/`false`/`null`, and the four
whitespace characters between tokens.  A parse error is `none` (the embedded
callers catch `json.JSONDecodeError` exactly where the sources do).
`NaN`/`Infinity` literals and `\u` surrogate pairs are not modelled; no
input in this development uses them.  Numbers are modelled as rationals. -/

inductive Json where
  | null
  | bool (b : Bool)
  | num (q : ℚ)
  | str (s : String)
  | arr (elems : List Json)
  | obj (fields : List (String × Json))

/-- Python-dict insertion: updating an existing key keeps its position,
a new key is appended (the behaviour of `dict` built from parsed pairs). -/
def insertUpd : List (String × Json) → String → Json → List (String × Json)
  | [], k, v => [(k, v)]
  | (k1, v1) :: rest, k, v =>
    if k1 = k then (k1, v) :: rest else (k1, v1) :: insertUpd rest k v

/-- First-match lookup in an ordered dict. -/
def lookupStr (kvs : List (String × Json)) (k : String) : Option Json :=
  match kvs with
  | [] => none
  | (k1, v1) :: rest => if k1 = k then some v1 else lookupStr rest k

/-- Python truthiness of a decoded JSON value. -/
def jsonTruthy : Json → Bool
  | .null => false
  | .bool b => b
  | .num q => if q = 0 then false else true
  | .str s => !s.isEmpty
  | .arr l => !l.isEmpty
  | .obj l => !l.isEmpty

def hexVal (c : Char) : Option Nat :=
  if '0' ≤ c ∧ c ≤ '9' then some (c.toNat - 48)
  else if 'a' ≤ c ∧ c ≤ 'f' then some (c.toNat - 87)
  else if 'A' ≤ c ∧ c ≤ 'F' then some (c.toNat - 55)
  else none

/-- Body of a JSON string literal, starting after the opening quote. -/
def parseStringBody : List Char → Option (List Char × List Char)
  | [] => none
  | '"' :: rest => some ([], rest)
  | '\\' :: rest =>
    match rest with
    | 'n' :: r => (parseStringBody r).map fun x => ('\n' :: x.1, x.2)
    | 't' :: r => (parseStringBody r).map fun x => ('\t' :: x.1, x.2)
    | 'r' :: r => (parseStringBody r).map fun x => ('\r' :: x.1, x.2)
    | 'b' :: r => (parseStringBody r).map fun x => ('\x08' :: x.1, x.2)
    | 'f' :: r => (parseStringBody r).map fun x => ('\x0c' :: x.1, x.2)
    | '"' :: r => (parseStringBody r).map fun x => ('"' :: x.1, x.2)
    | '\\' :: r => (parseStringBody r).map fun x => ('\\' :: x.1, x.2)
    | '/' :: r => (parseStringBody r).map fun x => ('/' :: x.1, x.2)
    | 'u' :: h1 :: h2 :: h3 :: h4 :: r =>
      match hexVal h1, hexVal h2, hexVal h3, hexVal h4 with
      | some a, some b, some c, some d =>
        (parseStringBody r).map fun x =>
          (Char.ofNat (((a * 16 + b) * 16 + c) * 16 + d) :: x.1, x.2)
      | _, _, _, _ => none
    | _ => none
  | c :: rest =>
    if c.toNat < 32 then none
    else (parseStringBody rest).map fun x => (c :: x.1, x.2)

def isDigitCh (c : Char) : Bool := '0' ≤ c && c ≤ '9'

def digitsToNat (ds : List Char) : Nat :=
  ds.foldl (fun acc c => acc * 10 + (c.toNat - 48)) 0

/-- JSON number grammar: `-?(0|[1-9][0-9]*)(\.[0-9]+)?([eE][+-]?[0-9]+)?`. -/
def parseNumber (cs : List Char) : Option (ℚ × List Char) :=
  let (neg, cs1) :=
    match cs with
    | '-' :: r => (true, r)
    | _ => (false, cs)
  let intPart : Option (List Char × List Char) :=
    match cs1 with
    | '0' :: r =>
      match r with
      | c :: _ => if isDigitCh c then none else some (['0'], r)
      | [] => some (['0'], [])
    | c :: _ =>
      if isDigitCh c then some (cs1.takeWhile isDigitCh, cs1.dropWhile isDigitCh)
      else none
    | [] => none
  match intPart with
  | none => none
  | some (ids, cs2) =>
    let fracPart : Option (List Char × List Char) :=
      match cs2 with
      | '.' :: r =>
        let fs := r.takeWhile isDigitCh
        if fs.isEmpty then none else some (fs, r.dropWhile isDigitCh)
      | _ => some ([], cs2)
    match fracPart with
    | none => none
    | some (fds, cs3) =>
      let expPart : Option (Int × List Char) :=
        match cs3 with
        | 'e' :: r | 'E' :: r =>
          let (esign, r1) :=
            match r with
            | '+' :: r2 => ((1 : Int), r2)
            | '-' :: r2 => ((-1 : Int), r2)
            | _ => ((1 : Int), r)
          let eds := r1.takeWhile isDigitCh
          if eds.isEmpty then none
          else some (esign * (digitsToNat eds : Int), r1.dropWhile isDigitCh)
        | _ => some (0, cs3)
      match expPart with
      | none => none
      | some (e, cs4) =>
        let mant : Int := (digitsToNat (ids ++ fds) : Int)
        let mant := if neg then -mant else mant
        let e2 : Int := e - (fds.length : Int)
        let q : ℚ :=
          if 0 ≤ e2 then (mant * (10 : Int) ^ e2.toNat : Int)
          else mkRat mant ((10 : Nat) ^ (-e2).toNat)
        some (q, cs4)

mutual

def parseVal : Nat → List Char → Option (Json × List Char)
  | 0, _ => none
  | fuel + 1, cs =>
    let cs1 := cs.dropWhile isJsonWs
    match cs1 with
    | [] => none
    | c :: rest =>
      if c = '{' then
        let r1 := rest.dropWhile isJsonWs
        match r1 with
        | '}' :: r2 => some (.obj [], r2)
        | _ => (parseMembers fuel [] r1).map fun x => (Json.obj x.1, x.2)
      else if c = '[' then
        let r1 := rest.dropWhile isJsonWs
        match r1 with
        | ']' :: r2 => some (.arr [], r2)
        | _ => (parseElems fuel [] r1).map fun x => (Json.arr x.1, x.2)
      else if c = '"' then
        (parseStringBody rest).map fun x => (Json.str (String.mk x.1), x.2)
      else if c = 't' then
        if ['r', 'u', 'e'].isPrefixOf rest then some (.bool true, rest.drop 3)
        else none
      else if c = 'f' then
        if ['a', 'l', 's', 'e'].isPrefixOf rest then some (.bool false, rest.drop 4)
        else none
      else if c = 'n' then
        if ['u', 'l', 'l'].isPrefixOf rest then some (.null, rest.drop 3)
        else none
      else
        (parseNumber cs1).map fun x => (Json.num x.1, x.2)

/-- Members of an object, positioned at a key. -/
def parseMembers : Nat → List (String × Json) → List Char →
    Option (List (String × Json) × List Char)
  | 0, _, _ => none
  | fuel + 1, acc, cs =>
    match cs with
    | '"' :: rest =>
      match parseStringBody rest with
      | none => none
      | some (k, r1) =>
        match r1.dropWhile isJsonWs with
        | ':' :: r3 =>
          match parseVal fuel r3 with
          | none => none
          | some (v, r4) =>
            let acc2 := insertUpd acc (String.mk k) v
            match r4.dropWhile isJsonWs with
            | ',' :: r6 => parseMembers fuel acc2 (r6.dropWhile isJsonWs)
            | '}' :: r6 => some (acc2, r6)
            | _ => none
        | _ => none
    | _ => none

/-- Elements of an array, positioned at a value. -/
def parseElems : Nat → List Json → List Char → Option (List Json × List Char)
  | 0, _, _ => none
  | fuel + 1, acc, cs =>
    match parseVal fuel cs with
    | none => none
    | some (v, r1) =>
      match r1.dropWhile isJsonWs with
      | ',' :: r2 => parseElems fuel (acc ++ [v]) r2
      | ']' :: r2 => some (acc ++ [v], r2)
      | _ => none

end

/-- Model of `json.loads`: a top-level value followed only by whitespace. -/
def json_loads (s : String) : Option Json :=
  match parseVal (2 * s.length + 8) s.data with
  | some (v, rest) => if rest.dropWhile isJsonWs = [] then some v else none
  | none => none

/-! ## Model of Python `float(...)` and the exception/dict plumbing -/

/-- Python `str.replace(old, "")` for a single character. -/
def removeChar (c : Char) (s : List Char) : List Char :=
  s.filter (· ≠ c)

/-- Model of Python `float(s)` for decimal notation: optional surrounding
whitespace, an optional sign, digits with an optional fractional part (at
least one digit overall), and an optional exponent.  `inf`/`nan` literals
and underscore separators accepted by CPython are not modelled; no input
in this repository's pipeline produces them. -/
def pyFloat (s : String) : Option ℚ :=
  let cs := pyStrip s.data
  let (neg, cs1) :=
    match cs with
    | '+' :: r => (false, r)
    | '-' :: r => (true, r)
    | _ => (false, cs)
  let d1 := cs1.takeWhile isDigitCh
  let r1 := cs1.dropWhile isDigitCh
  let (d2, r3) :=
    match r1 with
    | '.' :: r2 => (r2.takeWhile isDigitCh, r2.dropWhile isDigitCh)
    | _ => ([], r1)
  if d1.isEmpty && d2.isEmpty then none
  else
    let expPart : Option Int :=
      match r3 with
      | [] => some 0
      | 'e' :: r4 | 'E' :: r4 =>
        let (esign, r5) :=
          match r4 with
          | '+' :: r6 => ((1 : Int), r6)
          | '-' :: r6 => ((-1 : Int), r6)
          | _ => ((1 : Int), r4)
        let eds := r5.takeWhile isDigitCh
        if eds.isEmpty || r5.dropWhile isDigitCh ≠ [] then none
        else some (esign * (digitsToNat eds : Int))
      | _ => none
    match expPart with
    | none => none
    | some e =>
      let mant : Int := (digitsToNat (d1 ++ d2) : Int)
      let mant := if neg then -mant else mant
      let e2 : Int := e - (d2.length : Int)
      some (if 0 ≤ e2 then ((mant * (10 : Int) ^ e2.toNat : Int) : ℚ)
            else mkRat mant ((10 : Nat) ^ (-e2).toNat))

/-- Python exceptions that can escape the embedded code paths. -/
inductive PyExc where
  | attrError
  | typeError
deriving DecidableEq

/-- A JSON schema is itself a Python dict; only `properties` is consulted. -/
abbrev Schema := List (String × Json)

/-! ## `strip_code_block_tildes` (identical in both source files)

`re.sub` over the literal patterns `` ```json\n ``, `` ```markdown\n ``,
`` ```\n ``, `` ``` `` in that order, then `str.strip()`. -/

def patJson : List Char := ['`', '`', '`', 'j', 's', 'o', 'n', '\n']
def patMd : List Char := ['`', '`', '`', 'm', 'a', 'r', 'k', 'd', 'o', 'w', 'n', '\n']
def patTickNl : List Char := ['`', '`', '`', '\n']
def patTicks : List Char := ['`', '`', '`']

def stripCodeBlockTildesL (s : List Char) : List Char :=
  pyStrip (removeAll patTicks (removeAll patTickNl (removeAll patMd (removeAll patJson s))))

/-- `CloudflareAI.strip_code_block_tildes` / the identical
`CloudflareAIDirect.strip_code_block_tildes`. -/
def strip_code_block_tildes (s : String) : String :=
  String.mk (stripCodeBlockTildesL s.data)

/-! ## The regeneration retry loop (identical in both source files)

`_fallback_structured_response` calls `generate_text` up to 3 times inside
`try`, breaks on the first truthy response, logs exceptions, and executes
`time.sleep(1)` at the bottom of every non-breaking iteration.  The network
collaborator is an oracle giving each attempt's outcome: `.error e` for a
raised exception, `.ok none` for a `None` return, `.ok (some s)` for text
`s` (possibly empty, which is falsy).  The trace records the generation
requests issued and the sleeps executed, in order. -/

inductive Event where
  | call (attempt : Nat)
  | sleep (seconds : Nat)
deriving DecidableEq

abbrev GenOracle := Nat → Except PyExc (Option String)

/-- Truthiness of the `raw_response` variable. -/
def truthyResp : Option String → Bool
  | none => false
  | some s => !s.isEmpty

/-- `retryLoopGo oracle n i raw` runs the remaining `n` iterations of
`for i in range(retries)` starting at index `i`, with `raw` the current
value of `raw_response`. -/
def retryLoopGo (oracle : GenOracle) : Nat → Nat → Option String → Option String × List Event
  | 0, _, raw => (raw, [])
  | n + 1, i, raw =>
    match oracle i with
    | .error _ =>
      let (r, t) := retryLoopGo oracle n (i + 1) raw
      (r, .call i :: .sleep 1 :: t)
    | .ok v =>
      if truthyResp v then (v, [.call i])
      else
        let (r, t) := retryLoopGo oracle n (i + 1) v
        (r, .call i :: .sleep 1 :: t)

/-- The retry loop of `_fallback_structured_response` (lines 282–295 of
`cloudflare_direct_fixed.py`, lines 253–266 of `__init__.py`), returning the
final value of `raw_response` together with the call/sleep trace. -/
def fallback_retry_loop (oracle : GenOracle) : Option String × List Event :=
  retryLoopGo oracle 3 0 none

/-! ## Generic `re.sub` scanner

`scanRepl m fuel s` scans `s` left to right; where the matcher `m` fires it
emits the replacement and resumes after the consumed text, otherwise it
copies one character.  Every matcher used below consumes at least one
character, so fuel `s.length` always suffices. -/

def scanRepl (m : List Char → Option (List Char × List Char)) :
    Nat → List Char → List Char
  | 0, s => s
  | _ + 1, [] => []
  | fuel + 1, c :: cs =>
    match m (c :: cs) with
    | some (e, rest) => e ++ scanRepl m fuel rest
    | none => c :: scanRepl m fuel cs

/-- Case-insensitive literal prefix test (`pat` given in lower case). -/
def ciPrefixOf (pat cs : List Char) : Bool :=
  pat.isPrefixOf ((cs.take pat.length).map Char.toLower)

/-- `text[text.find('{'):text.rfind('}') + 1]`: the slice between the first
opening and the last closing brace (empty when the last `\x7d` precedes the
first `\x7b`, exactly as in Python). -/
def sliceBraces (t : List Char) : List Char :=
  ((t.dropWhile (· ≠ '{')).reverse.dropWhile (· ≠ '}')).reverse

/-! ## `_fix_common_json_issues` (shared shape, one char-class difference)

Three `re.sub` passes: drop a comma before `\s*\x7d`; double a backslash-n
sequence not already preceded by a backslash; wrap an unquoted scalar value
after a colon in double quotes.  The direct-API class additionally excludes
digits and `-` from the first character of the unquoted-value capture. -/

def mComma (cs : List Char) : Option (List Char × List Char) :=
  match cs with
  | ',' :: r =>
    match r.dropWhile isPyWs with
    | '}' :: r2 => some (r.takeWhile isPyWs ++ ['}'], r2)
    | _ => none
  | _ => none

/-- `re.sub(r'(?<!\\)\\n', '\\\\n', s)`: the two-character sequence
backslash-`n`, when the preceding source character is not a backslash,
gets its backslash doubled.  `prev` is the preceding source character. -/
def escNGo : Option Char → Nat → List Char → List Char
  | _, 0, s => s
  | _, _ + 1, [] => []
  | prev, fuel + 1, '\\' :: 'n' :: rest =>
    if prev = some '\\' then '\\' :: escNGo (some '\\') fuel ('n' :: rest)
    else '\\' :: '\\' :: 'n' :: escNGo (some 'n') fuel rest
  | _, fuel + 1, c :: cs => c :: escNGo (some c) fuel cs

/-- First-character class of the unquoted-value capture.  `dExtra` adds the
`\d` and `-` exclusions present only in `cloudflare_direct_fixed.py`. -/
def badStart (dExtra : Bool) (c : Char) : Bool :=
  c = '"' || c = ',' || c = '{' || c = '[' || isPyWs c ||
    (dExtra && (isDigitCh c || c = '-'))

/-- Lazy extension of the capture `[^",\x7d]*?` until the remainder matches
`\s*[,\x7d]`; returns capture, the whitespace of group 2, the terminating
character, and the rest. -/
def lazyCapture : Nat → List Char → List Char →
    Option (List Char × List Char × Char × List Char)
  | 0, _, _ => none
  | fuel + 1, acc, rest =>
    match rest.dropWhile isPyWs with
    | c :: r2 =>
      if c = ',' || c = '}' then some (acc, rest.takeWhile isPyWs, c, r2)
      else
        match rest with
        | x :: xs =>
          if x = '"' || x = ',' || x = '}' then none
          else lazyCapture fuel (acc ++ [x]) xs
        | [] => none
    | [] => none

def mQuoteFix (dExtra : Bool) (cs : List Char) : Option (List Char × List Char) :=
  match cs with
  | ':' :: r1 =>
    match r1.dropWhile isPyWs with
    | c0 :: r3 =>
      if badStart dExtra c0 then none
      else
        match lazyCapture (r3.length + 1) [c0] r3 with
        | some (cap, w, ec, rest) =>
          some (':' :: ' ' :: '"' :: (cap ++ '"' :: w ++ [ec]), rest)
        | none => none
    | [] => none
  | _ => none

def fixCommonL (dExtra : Bool) (cs : List Char) : List Char :=
  let a := scanRepl mComma cs.length cs
  let b := escNGo none a.length a
  scanRepl (mQuoteFix dExtra) b.length b

/-! ## Shared tail of both `_fallback_structured_response` variants -/

/-- `schema.get("properties", \x7b\x7d).keys()`; `.keys()` on a non-dict
value raises `AttributeError`. -/
def propsKeysE (schema : Schema) : Except PyExc (List String) :=
  match lookupStr schema "properties" with
  | none => .ok []
  | some (.obj props) => .ok (props.map Prod.fst)
  | some _ => .error .attrError

/-- Initialise every schema key to `"n/a"`, then overwrite from the parsed
object where the key matches (lines 308–314 of `cloudflare_direct_fixed.py`,
lines 298–304 of `__init__.py`). -/
def fillNA (keys : List String) (pkvs : List (String × Json)) :
    List (String × Json) :=
  keys.map fun k => (k, match lookupStr pkvs k with
    | some v => v
    | none => .str "n/a")

/-- `if not parsed_response: return None`, then the placeholder fill, for a
parsed value `p`; identical in both classes.  A falsy parsed value —
`None` was handled by the caller, and `\x7b\x7d`, `[]`, `""`, `0`, `false`
are all falsy — returns `None`; `parsed_response.items()` on a truthy
non-dict raises `AttributeError`. -/
def fallbackFill (schema : Schema) (p : Json) :
    Except PyExc (Option Json) × Schema :=
  if !jsonTruthy p then (.ok none, schema)
  else
    match propsKeysE schema with
    | .error e => (.error e, schema)
    | .ok keys =>
      match p with
      | .obj pkvs => (.ok (some (.obj (fillNA keys pkvs))), schema)
      | _ => (.error .attrError, schema)

/-! ## `CloudflareAIDirect` (cloudflare_direct_fixed.py) -/

namespace CFDirect

/-! ### `strip_all_markdown_formatting` (lines 318–340)

In order: slice from the first `\x7b` when the text mentions `json` and
contains `\x7b`; `re.sub(r'```json\s*', '', text, flags=IGNORECASE)`;
`re.sub(r'```\s*json\s*', '', text, flags=IGNORECASE)`;
`re.sub(r'```\s*', '', text)`; `re.sub(r'```$', '', text)` (which is a
no-op, the previous pass having removed every triple backtick);
`text.replace('```', '')` (likewise a no-op); `text.strip()`. -/

def mJsonTicks (cs : List Char) : Option (List Char × List Char) :=
  if ciPrefixOf ['`', '`', '`', 'j', 's', 'o', 'n'] cs then
    some ([], (cs.drop 7).dropWhile isPyWs)
  else none

def mTicksWsJson (cs : List Char) : Option (List Char × List Char) :=
  if patTicks.isPrefixOf cs then
    let r := (cs.drop 3).dropWhile isPyWs
    if ciPrefixOf ['j', 's', 'o', 'n'] r then
      some ([], (r.drop 4).dropWhile isPyWs)
    else none
  else none

def mTicksWs (cs : List Char) : Option (List Char × List Char) :=
  if patTicks.isPrefixOf cs then some ([], (cs.drop 3).dropWhile isPyWs)
  else none

/-- `re.sub(r'```$', '', text)`: `$` matches at the end of the string or
just before one final newline. -/
def removeEndTicks (cs : List Char) : List Char :=
  if endsWithL patTicks cs then cs.take (cs.length - 3)
  else if endsWithL ['`', '`', '`', '\n'] cs then
    cs.take (cs.length - 4) ++ ['\n']
  else cs

def stripAllMarkdownL (cs : List Char) : List Char :=
  let a :=
    if containsSub ['j', 's', 'o', 'n'] (lowerStr cs) && cs.contains '{' then
      cs.dropWhile (· ≠ '{')
    else cs
  let b := scanRepl mJsonTicks a.length a
  let c := scanRepl mTicksWsJson b.length b
  let d := scanRepl mTicksWs c.length c
  let e := removeEndTicks d
  let f := removeAll patTicks e
  pyStrip f

def strip_all_markdown_formatting (s : String) : String :=
  String.mk (stripAllMarkdownL s.data)

/-! ### `_fix_numeric_values` (lines 382–396)

`data.items()` on a non-dict raises `AttributeError` (this is not caught by
the `except json.JSONDecodeError` handlers of the caller).  For each key
declared `type: number` in `schema['properties']` whose value is a string,
`value.replace(',', '').replace('$', '')` is converted with `float`; on
`ValueError` the value is left unchanged.  A non-dict property descriptor
makes `prop_schema.get` raise `AttributeError`; Python's membership test
`key in schema['properties']` on a non-dict `properties` value is
approximated by `typeError` (no claim exercises malformed schemas). -/

def numCoerce (s : String) : Json :=
  match pyFloat (String.mk (removeChar '$' (removeChar ',' s.data))) with
  | some q => .num q
  | none => .str s

def coerceField (props : List (String × Json)) (k : String) (v : Json) :
    Except PyExc (String × Json) :=
  match lookupStr props k with
  | none => .ok (k, v)
  | some (.obj pd) =>
    match lookupStr pd "type" with
    | some (.str t) =>
      if t = "number" then
        match v with
        | .str s => .ok (k, numCoerce s)
        | _ => .ok (k, v)
      else .ok (k, v)
    | _ => .ok (k, v)
  | some _ => .error .attrError

def coerceAll (propsJ : Json) : List (String × Json) →
    Except PyExc (List (String × Json))
  | [] => .ok []
  | (k, v) :: rest =>
    match propsJ with
    | .obj props =>
      match coerceField props k v with
      | .error e => .error e
      | .ok kv =>
        match coerceAll propsJ rest with
        | .error e => .error e
        | .ok t => .ok (kv :: t)
    | _ => .error .typeError

def fix_numeric_values (d : Json) (schema : Schema) :
    Except PyExc Json × Schema :=
  if schema.isEmpty || (lookupStr schema "properties").isNone then (.ok d, schema)
  else
    match d with
    | .obj kvs =>
      match lookupStr schema "properties" with
      | some propsJ =>
        match coerceAll propsJ kvs with
        | .ok kvs2 => (.ok (.obj kvs2), schema)
        | .error e => (.error e, schema)
      | none => (.ok d, schema)
    | _ => (.error .attrError, schema)

def fix_common_json_issues (s : String) : String :=
  String.mk (fixCommonL true s.data)

/-- Wrap the result of a successful parse: `return self._fix_numeric_values
(result, schema)`; an exception raised there escapes
`_extract_and_fix_json`. -/
def returnFixed (r : Json) (schema : Schema) :
    Except PyExc (Option Json) × Schema :=
  match fix_numeric_values r schema with
  | (.ok j, sch) => (.ok (some j), sch)
  | (.error e, sch) => (.error e, sch)

/-- Approaches 3 and 4 of `_extract_and_fix_json` on the brace-boundary
slice `jt`: parse, repair with `_fix_common_json_issues` and parse again,
else `None`. -/
def tailParseD (jt : List Char) (schema : Schema) :
    Except PyExc (Option Json) × Schema :=
  match json_loads (String.mk jt) with
  | some r => returnFixed r schema
  | none =>
    match json_loads (String.mk (fixCommonL true jt)) with
    | some r => returnFixed r schema
    | none => (.ok none, schema)

/-- `_extract_and_fix_json` after its own `strip_all_markdown_formatting`
call on the already-stripped text `t`. -/
def extract_core (t : List Char) (schema : Schema) :
    Except PyExc (Option Json) × Schema :=
  match json_loads (String.mk t) with
  | some r => returnFixed r schema
  | none =>
    if !(t.contains '{') || !(t.contains '}') then (.ok none, schema)
    else tailParseD (sliceBraces t) schema

/-- `_extract_and_fix_json` (lines 342–380): re-strip, direct parse,
brace-boundary slice, `_fix_common_json_issues`, giving up with `None`. -/
def extract_and_fix_json (text : String) (schema : Schema) :
    Except PyExc (Option Json) × Schema :=
  extract_core (stripAllMarkdownL text.data) schema

/-- The part of `_fallback_structured_response` after the retry loop, given
the final `raw_response`. -/
def fallbackTail (raw : Option String) (schema : Schema) :
    Except PyExc (Option Json) × Schema :=
  if !truthyResp raw then (.ok none, schema)
  else
    match extract_and_fix_json
        (String.mk (stripAllMarkdownL (raw.getD "").data)) schema with
    | (.error e, sch) => (.error e, sch)
    | (.ok none, sch) => (.ok none, sch)
    | (.ok (some p), sch) => fallbackFill sch p

/-- `_fallback_structured_response` (lines 260–316): build the regeneration
prompt (network detail, not modelled), run the retry loop, strip and
re-extract, return `None` when `parsed_response` is falsy, otherwise fill
every schema key with `"n/a"` and overwrite from the parsed object.
Nothing after the retry loop is inside a `try`, so exceptions raised here
propagate out of the method. -/
def fallback_structured_response (schema : Schema) (oracle : GenOracle) :
    Except PyExc (Option Json) × Schema :=
  fallbackTail (fallback_retry_loop oracle).1 schema

/-- `structured_response` (lines 172–258), modelled from the point where a
completion `content` has been received (the credential checks and the HTTP
transport are collaborators outside the pipeline; every transport-level
failure branch of the source calls `_fallback_structured_response`, as does
the `except Exception` handler wrapping the parse).  A dict content is
returned as is; a string content is stripped and recovered; any other
content shape makes `strip_all_markdown_formatting` raise inside the `try`,
which also lands in the fallback. -/
def structured_response (content : Json) (schema : Schema) (oracle : GenOracle) :
    Except PyExc (Option Json) × Schema :=
  match content with
  | .obj kvs => (.ok (some (.obj kvs)), schema)
  | .str s =>
    match extract_and_fix_json
        (String.mk (stripAllMarkdownL s.data)) schema with
    | (.ok (some p), sch) =>
      if jsonTruthy p then (.ok (some p), sch)
      else fallback_structured_response sch oracle
    | (.ok none, sch) => fallback_structured_response sch oracle
    | (.error _, sch) => fallback_structured_response sch oracle
  | _ => fallback_structured_response schema oracle

end CFDirect

/-! ## `CloudflareAI` (__init__.py) -/

namespace CFWorker

/-! ### `_attempt_json_completion` (lines 346–381)

Split into lines; keep each nonempty line that ends with a comma or an
opening brace, or contains a quote and a colon and ends with `"` or `",`;
at the first other nonempty line, synthesize two spaces, the text before
the first colon, and `: "n/a"` when the line contains a quote and a colon,
and stop.  Then close the object, removing a
dangling comma first.  The `schema` parameter is threaded but unused, as in
the source. -/

def lineKeep (stripped : List Char) : Bool :=
  endsWithL [','] stripped || endsWithL ['{'] stripped ||
    (containsSub ['"'] stripped && containsSub [':'] stripped &&
      (endsWithL ['"'] stripped || endsWithL ['"', ','] stripped))

def completionGo : List (List Char) → List (List Char)
  | [] => []
  | line :: rest =>
    let stripped := pyStrip line
    if stripped.isEmpty then completionGo rest
    else if lineKeep stripped then line :: completionGo rest
    else if containsSub ['"'] stripped && containsSub [':'] stripped then
      let fieldName := pyStrip (stripped.takeWhile (· ≠ ':'))
      [' ' :: ' ' :: (fieldName ++ [':', ' ', '"', 'n', '/', 'a', '"'])]
    else []

/-- `result.rsplit(',', 1)[0]`: everything before the last comma. -/
def dropAfterLastComma (cs : List Char) : List Char :=
  if cs.contains ',' then ((cs.reverse.dropWhile (· ≠ ',')).drop 1).reverse
  else cs

def attempt_json_completion (incomplete : List Char) (schema : Schema) :
    List Char × Schema :=
  let result := joinLines (completionGo (splitOnChar '\n' incomplete))
  let result :=
    if endsWithL ['}'] (pyStrip result) then result
    else
      (if endsWithL [','] (pyStrip result) then dropAfterLastComma result
       else result) ++ ['\n', '}']
  (result, schema)

def fix_common_json_issues (s : String) : String :=
  String.mk (fixCommonL false s.data)

/-- Approaches 3 and 4 of `_extract_and_fix_json` on the candidate text
`jt` (this class returns decoded values without numeric coercion). -/
def tailParseW (jt : List Char) (schema : Schema) :
    Except PyExc (Option Json) × Schema :=
  match json_loads (String.mk jt) with
  | some r => (.ok (some r), schema)
  | none =>
    match json_loads (String.mk (fixCommonL false jt)) with
    | some r => (.ok (some r), schema)
    | none => (.ok none, schema)

/-- The candidate slice of approach 2: when no closing brace exists, the
completion of the text from the first opening brace, else the
brace-boundary slice. -/
def candidate (t : List Char) (schema : Schema) : List Char :=
  if !(t.contains '}') then
    (attempt_json_completion (t.dropWhile (· ≠ '{')) schema).1
  else sliceBraces t

/-- `_extract_and_fix_json` (lines 308–344): direct parse (returning the
decoded value as is — this class has no numeric coercion), brace boundary
with `_attempt_json_completion` when no closing brace exists,
`_fix_common_json_issues`, then `None`. -/
def extract_and_fix_json (text : String) (schema : Schema) :
    Except PyExc (Option Json) × Schema :=
  match json_loads text with
  | some r => (.ok (some r), schema)
  | none =>
    if !(text.data.contains '{') then (.ok none, schema)
    else tailParseW (candidate text.data schema) schema

/-- The regex branch applied to the stripped text `t`. -/
def regexExtract (t : List Char) : Option Json :=
  match t with
  | '{' :: _ =>
    if endsWithL ['}'] t then json_loads (String.mk t) else none
  | _ => none

/-- The parse stage of `_fallback_structured_response` (lines 272–293):
direct `json.loads`, else `re.search(r'^\s*(\x7b.*\x7d)\s*$', ..., DOTALL)`
— which matches exactly when the stripped text starts with `\x7b` and ends
with `\x7d`, the group being the stripped text — parsed again. -/
def fallbackParse (cleaned : String) : Option Json :=
  match json_loads cleaned with
  | some v => some v
  | none => regexExtract (pyStrip cleaned.data)

/-- The part of `_fallback_structured_response` after the retry loop, given
the final `raw_response`. -/
def fallbackTail (raw : Option String) (schema : Schema) :
    Except PyExc (Option Json) × Schema :=
  if !truthyResp raw then (.ok none, schema)
  else
    match fallbackParse
        (String.mk (stripCodeBlockTildesL (raw.getD "").data)) with
    | none => (.ok none, schema)
    | some p => fallbackFill schema p

/-- `_fallback_structured_response` (lines 232–306). -/
def fallback_structured_response (schema : Schema) (oracle : GenOracle) :
    Except PyExc (Option Json) × Schema :=
  fallbackTail (fallback_retry_loop oracle).1 schema

/-- `structured_response` (lines 145–230), modelled from the point where a
completion `content` has been received; every failure branch of the source
calls `_fallback_structured_response`. -/
def structured_response (content : Json) (schema : Schema) (oracle : GenOracle) :
    Except PyExc (Option Json) × Schema :=
  match content with
  | .obj kvs => (.ok (some (.obj kvs)), schema)
  | .str s =>
    match extract_and_fix_json
        (String.mk (stripCodeBlockTildesL s.data)) schema with
    | (.ok (some p), sch) =>
      if jsonTruthy p then (.ok (some p), sch)
      else fallback_structured_response sch oracle
    | (.ok none, sch) => fallback_structured_response sch oracle
    | (.error _, sch) => fallback_structured_response sch oracle
  | _ => fallback_structured_response schema oracle

end CFWorker

/-! ## Fenced inputs (specification side of claim C9)

A fenced input is the content preceded by an opening fence marker
(`` ```json ``, `` ```markdown `` or a bare `` ``` ``, each on its own
line) and followed by the closing `` ``` ``.  "Nested at most once" means
one or two nested wraps around a content that itself contains no triple
backtick.  Removing exactly the fence markers from such an input recovers
the content. -/

inductive Fence where
  | json
  | markdown
  | bare

def fenceOpener : Fence → List Char
  | .json => patJson
  | .markdown => patMd
  | .bare => patTickNl

/-- Wrap content in one fence: opener line, content, closing ```` ``` ````. -/
def wrapFence (f : Fence) (s : List Char) : List Char :=
  fenceOpener f ++ s ++ '\n' :: patTicks

/-! ## Concrete fixtures used by the claim theorems -/

/-- The schema of the spec's worked scenario. -/
def exSchema : Schema :=
  [("properties", .obj
    [("job_title", .obj [("type", .str "string")]),
     ("salary_min", .obj [("type", .str "number")])])]

/-- The spec scenario's raw completion: opening brace, two fields, no
closing brace. -/
def exTruncated : String :=
  "\x7b\"job_title\": \"Engineer\", \"salary_min\": \"$100,000\""

/-- A regeneration collaborator that fails (returns `None`) on every
attempt. -/
def oracleAllNone : GenOracle := fun _ => .ok none

/-- A regeneration collaborator whose first attempt returns the JSON array
text `[1]`. -/
def oracleArray : GenOracle := fun _ => .ok (some "[1]")

/-- A regeneration collaborator whose first attempt returns the empty JSON
object text. -/
def oracleEmptyObj : GenOracle := fun _ => .ok (some "\x7b\x7d")

/-- A regeneration collaborator whose first attempt returns a partial
object covering one of the two schema fields. -/
def oraclePartial : GenOracle := fun _ => .ok (some "\x7b\"job_title\": \"Dev\"\x7d")

/-! ## Statement helpers -/

/-- The value `raw_response` takes after one attempt: a raised exception
leaves it unchanged from `None`, otherwise it is the returned value. -/
def attemptText : Except PyExc (Option String) → Option String
  | .error _ => none
  | .ok v => v

/-- Whether one attempt produced usable (truthy) text. -/
def attemptTruthy (o : Except PyExc (Option String)) : Bool :=
  truthyResp (attemptText o)

/-- The pure content of `CFDirect.coerceField` on a well-formed schema:
what one field's value becomes under numeric coercion. -/
def coerceFieldPure (props : List (String × Json)) (k : String) (v : Json) :
    Json :=
  match lookupStr props k with
  | some (.obj pd) =>
    match lookupStr pd "type" with
    | some (.str t) =>
      if t = "number" then
        match v with
        | .str s => CFDirect.numCoerce s
        | _ => v
      else v
    | _ => v
  | _ => v

/-! # Lemmas -/

/-! ## `removeAll` toolkit -/

lemma removeAllAux_nil (p : List Char) : ∀ f, removeAllAux p f [] = []
  | 0 => rfl
  | _ + 1 => rfl

lemma removeAllAux_fuel (p : List Char) :
    ∀ f1 f2 s, s.length ≤ f1 → s.length ≤ f2 →
      removeAllAux p f1 s = removeAllAux p f2 s := by
  intro f1
  induction f1 with
  | zero =>
    intro f2 s h1 _
    have hs : s = [] := List.eq_nil_of_length_eq_zero (Nat.le_zero.mp h1)
    subst hs
    rw [removeAllAux_nil, removeAllAux_nil]
  | succ f ih =>
    intro f2 s h1 h2
    cases s with
    | nil => rw [removeAllAux_nil, removeAllAux_nil]
    | cons c cs =>
      cases f2 with
      | zero => simp at h2
      | succ k =>
        by_cases hc : p ≠ [] ∧ p.isPrefixOf (c :: cs)
        · have hp : 1 ≤ p.length := by
            cases p with
            | nil => exact absurd rfl hc.1
            | cons a as => simp
          have hd : ((c :: cs).drop p.length).length ≤ f := by
            rw [List.length_drop]
            omega
          have hd2 : ((c :: cs).drop p.length).length ≤ k := by
            rw [List.length_drop]
            omega
          simp only [removeAllAux, if_pos hc]
          exact ih k _ hd hd2
        · have hcs : cs.length ≤ f := by simpa using h1
          have hcs2 : cs.length ≤ k := by simpa using h2
          simp only [removeAllAux, if_neg hc]
          rw [ih k cs hcs hcs2]

lemma removeAll_nil (p : List Char) : removeAll p [] = [] := rfl

lemma removeAll_cons_match {p : List Char} (c : Char) (cs : List Char)
    (h : p ≠ [] ∧ p.isPrefixOf (c :: cs)) :
    removeAll p (c :: cs) = removeAll p ((c :: cs).drop p.length) := by
  have hp : 1 ≤ p.length := by
    cases p with
    | nil => exact absurd rfl h.1
    | cons a as => simp
  unfold removeAll
  have : removeAllAux p (c :: cs).length (c :: cs)
      = removeAllAux p cs.length ((c :: cs).drop p.length) := by
    simp only [List.length_cons, removeAllAux, if_pos h]
  rw [this]
  apply removeAllAux_fuel
  · rw [List.length_drop]; simp; omega
  · rfl

lemma removeAll_cons_nomatch {p : List Char} (c : Char) (cs : List Char)
    (h : ¬ (p ≠ [] ∧ p.isPrefixOf (c :: cs))) :
    removeAll p (c :: cs) = c :: removeAll p cs := by
  unfold removeAll
  simp only [List.length_cons, removeAllAux, if_neg h]

lemma removeAll_prefix {p : List Char} (hp : p ≠ []) (s : List Char) :
    removeAll p (p ++ s) = removeAll p s := by
  cases p with
  | nil => exact absurd rfl hp
  | cons q qs =>
    have hpre : (q :: qs).isPrefixOf ((q :: qs) ++ s) := by
      rw [List.isPrefixOf_iff_prefix]
      exact List.prefix_append _ _
    have := removeAll_cons_match (p := q :: qs) q (qs ++ s)
      ⟨by simp, by simp [hpre]⟩
    simpa [List.drop_left] using this

lemma sepCheck_tail {p : List Char} {c : Char} {A : List Char}
    (h : sepCheck p (c :: A) = true) : sepCheck p A = true := by
  unfold sepCheck at h ⊢
  rw [List.tails_cons] at h
  simp only [List.all_cons, Bool.and_eq_true] at h
  exact h.2

lemma removeAll_append_of_sepCheck {p : List Char} :
    ∀ A r, sepCheck p A = true → removeAll p (A ++ r) = A ++ removeAll p r := by
  intro A
  induction A with
  | nil => intro r _; rfl
  | cons c A2 ih =>
    intro r hA
    have hnomatch : ¬ (p ≠ [] ∧ p.isPrefixOf (c :: (A2 ++ r))) := by
      rintro ⟨-, hpre⟩
      rw [List.isPrefixOf_iff_prefix] at hpre
      have hsplit : p <+: (c :: A2) ∨ (c :: A2) <+: p := by
        have h2 : (c :: A2) <+: ((c :: A2) ++ r) := List.prefix_append _ _
        have h1 : p <+: ((c :: A2) ++ r) := by simpa using hpre
        exact List.prefix_or_prefix_of_prefix h1 h2
      have hmem : (c :: A2) ∈ (c :: A2).tails := by
        rw [List.mem_tails]
      have hchk := List.all_eq_true.mp hA _ hmem
      simp only [List.isEmpty_cons, Bool.false_or, Bool.and_eq_true,
        Bool.not_eq_true'] at hchk
      rcases hsplit with h | h
      · rw [← List.isPrefixOf_iff_prefix] at h
        simp [h] at hchk
      · rw [← List.isPrefixOf_iff_prefix] at h
        simp [h] at hchk
    rw [List.cons_append, removeAll_cons_nomatch _ _ hnomatch,
      ih r (sepCheck_tail hA), List.cons_append]

lemma tripleFree_tail {c : Char} {s : List Char} (h : TripleFree (c :: s)) :
    TripleFree s := by
  intro hinf
  exact h (hinf.trans (List.suffix_cons c s).isInfix)



lemma removeAll_append_of_tripleFree {p2 : List Char} :
    ∀ (s : List Char), TripleFree s → ∀ (y : List Char),
      removeAll ('`' :: '`' :: '`' :: p2) (s ++ '\n' :: y)
        = s ++ removeAll ('`' :: '`' :: '`' :: p2) ('\n' :: y) := by
  intro s
  induction s with
  | nil => intro _ y; rfl
  | cons c s2 ih =>
    intro hfree y
    have hnomatch :
        ¬ (('`' :: '`' :: '`' :: p2) ≠ [] ∧
           ('`' :: '`' :: '`' :: p2).isPrefixOf (c :: (s2 ++ '\n' :: y))) := by
      rintro ⟨-, hpre⟩
      rw [List.isPrefixOf_iff_prefix, List.cons_prefix_cons] at hpre
      obtain ⟨hc, hpre⟩ := hpre
      cases s2 with
      | nil =>
        rw [List.nil_append, List.cons_prefix_cons] at hpre
        exact absurd hpre.1 (by decide)
      | cons c2 s3 =>
        rw [List.cons_append, List.cons_prefix_cons] at hpre
        obtain ⟨hc2, hpre⟩ := hpre
        cases s3 with
        | nil =>
          rw [List.nil_append, List.cons_prefix_cons] at hpre
          exact absurd hpre.1 (by decide)
        | cons c3 s4 =>
          rw [List.cons_append, List.cons_prefix_cons] at hpre
          obtain ⟨hc3, -⟩ := hpre
          apply hfree
          have : ['`', '`', '`'] <+: (c :: c2 :: c3 :: s4) := by
            subst hc hc2 hc3
            exact ⟨s4, rfl⟩
          exact this.isInfix
    rw [List.cons_append, removeAll_cons_nomatch _ _ hnomatch,
      ih (tripleFree_tail hfree) y, List.cons_append]

/-! ## Fence-stripping chain lemmas (claim C9) -/

lemma pyStrip_append_newline (s : List Char) :
    pyStrip (s ++ ['\n']) = pyStrip s := by
  unfold pyStrip pyStripRight
  have : (s ++ ['\n']).reverse = '\n' :: s.reverse := by simp
  rw [this, List.dropWhile_cons_of_pos (by decide)]

lemma midJ {s : List Char} (hfree : TripleFree s) (y : List Char) :
    removeAll patJson (s ++ '\n' :: y) = s ++ removeAll patJson ('\n' :: y) :=
  @removeAll_append_of_tripleFree ['j', 's', 'o', 'n', '\n'] s hfree y

lemma midM {s : List Char} (hfree : TripleFree s) (y : List Char) :
    removeAll patMd (s ++ '\n' :: y) = s ++ removeAll patMd ('\n' :: y) :=
  @removeAll_append_of_tripleFree
    ['m', 'a', 'r', 'k', 'd', 'o', 'w', 'n', '\n'] s hfree y

lemma midT {s : List Char} (hfree : TripleFree s) (y : List Char) :
    removeAll patTickNl (s ++ '\n' :: y) = s ++ removeAll patTickNl ('\n' :: y) :=
  @removeAll_append_of_tripleFree ['\n'] s hfree y

lemma midK {s : List Char} (hfree : TripleFree s) (y : List Char) :
    removeAll patTicks (s ++ '\n' :: y) = s ++ removeAll patTicks ('\n' :: y) :=
  @removeAll_append_of_tripleFree [] s hfree y

/-- Steps 3 and 4 of the chain on a string ending in one closing fence. -/
lemma tailClose1 {s : List Char} (hfree : TripleFree s) :
    removeAll patTicks (removeAll patTickNl (s ++ '\n' :: patTicks))
      = s ++ ['\n'] := by
  rw [midT hfree, show removeAll patTickNl ('\n' :: patTicks) = '\n' :: patTicks
      from by decide,
    midK hfree, show removeAll patTicks ('\n' :: patTicks) = ['\n'] from by decide]

/-- Steps 3 and 4 of the chain on a string ending in two closing fences. -/
lemma tailClose2 {s : List Char} (hfree : TripleFree s) :
    removeAll patTicks
      (removeAll patTickNl (s ++ '\n' :: (patTicks ++ '\n' :: patTicks)))
      = s ++ ['\n'] := by
  rw [midT hfree,
    show removeAll patTickNl ('\n' :: (patTicks ++ '\n' :: patTicks))
        = '\n' :: patTicks from by decide,
    midK hfree, show removeAll patTicks ('\n' :: patTicks) = ['\n'] from by decide]

lemma prefJ (r : List Char) :
    removeAll patJson (patJson ++ r) = removeAll patJson r :=
  removeAll_prefix (by decide) r

lemma prefM (r : List Char) :
    removeAll patMd (patMd ++ r) = removeAll patMd r :=
  removeAll_prefix (by decide) r

lemma prefT (r : List Char) :
    removeAll patTickNl (patTickNl ++ r) = removeAll patTickNl r :=
  removeAll_prefix (by decide) r

lemma frontJT (r : List Char) :
    removeAll patJson (patTickNl ++ r) = patTickNl ++ removeAll patJson r :=
  removeAll_append_of_sepCheck _ _ (by decide)

lemma frontJM (r : List Char) :
    removeAll patJson (patMd ++ r) = patMd ++ removeAll patJson r :=
  removeAll_append_of_sepCheck _ _ (by decide)

lemma frontMT (r : List Char) :
    removeAll patMd (patTickNl ++ r) = patTickNl ++ removeAll patMd r :=
  removeAll_append_of_sepCheck _ _ (by decide)

/-- One fence wrap strips back to the trimmed content. -/
lemma stripWrap1 (f : Fence) (s : List Char) (hfree : TripleFree s) :
    stripCodeBlockTildesL (wrapFence f s) = pyStrip s := by
  cases f <;>
    · unfold stripCodeBlockTildesL wrapFence fenceOpener
      rw [List.append_assoc]
      first
      | rw [prefJ, midJ hfree,
          show removeAll patJson ('\n' :: patTicks) = '\n' :: patTicks from by decide,
          midM hfree,
          show removeAll patMd ('\n' :: patTicks) = '\n' :: patTicks from by decide,
          midT hfree,
          show removeAll patTickNl ('\n' :: patTicks) = '\n' :: patTicks from by decide,
          midK hfree,
          show removeAll patTicks ('\n' :: patTicks) = ['\n'] from by decide,
          pyStrip_append_newline]
      | rw [frontJM, midJ hfree,
          show removeAll patJson ('\n' :: patTicks) = '\n' :: patTicks from by decide,
          prefM, midM hfree,
          show removeAll patMd ('\n' :: patTicks) = '\n' :: patTicks from by decide,
          midT hfree,
          show removeAll patTickNl ('\n' :: patTicks) = '\n' :: patTicks from by decide,
          midK hfree,
          show removeAll patTicks ('\n' :: patTicks) = ['\n'] from by decide,
          pyStrip_append_newline]
      | rw [frontJT, midJ hfree,
          show removeAll patJson ('\n' :: patTicks) = '\n' :: patTicks from by decide,
          frontMT, midM hfree,
          show removeAll patMd ('\n' :: patTicks) = '\n' :: patTicks from by decide,
          prefT, midT hfree,
          show removeAll patTickNl ('\n' :: patTicks) = '\n' :: patTicks from by decide,
          midK hfree,
          show removeAll patTicks ('\n' :: patTicks) = ['\n'] from by decide,
          pyStrip_append_newline]

/-- Two nested fence wraps strip back to the trimmed content. -/
lemma stripWrap2 (f g : Fence) (s : List Char) (hfree : TripleFree s) :
    stripCodeBlockTildesL (wrapFence f (wrapFence g s)) = pyStrip s := by
  have dJ2 : removeAll patJson ('\n' :: (patTicks ++ '\n' :: patTicks))
      = '\n' :: (patTicks ++ '\n' :: patTicks) := by decide
  have dM2 : removeAll patMd ('\n' :: (patTicks ++ '\n' :: patTicks))
      = '\n' :: (patTicks ++ '\n' :: patTicks) := by decide
  have dT2 : removeAll patTickNl ('\n' :: (patTicks ++ '\n' :: patTicks))
      = '\n' :: patTicks := by decide
  have dT1 : removeAll patTickNl ('\n' :: patTicks) = '\n' :: patTicks := by decide
  have dK1 : removeAll patTicks ('\n' :: patTicks) = ['\n'] := by decide
  cases f <;> cases g <;>
    · unfold stripCodeBlockTildesL wrapFence fenceOpener
      simp only [List.append_assoc, List.cons_append]
      first
      | rw [prefJ, prefJ, midJ hfree, dJ2, midM hfree, dM2,
          midT hfree, dT2, midK hfree, dK1, pyStrip_append_newline]
      | rw [prefJ, frontJM, midJ hfree, dJ2, prefM, midM hfree, dM2,
          midT hfree, dT2, midK hfree, dK1, pyStrip_append_newline]
      | rw [prefJ, frontJT, midJ hfree, dJ2, frontMT, midM hfree, dM2,
          prefT, midT hfree, dT2, midK hfree, dK1, pyStrip_append_newline]
      | rw [frontJM, prefJ, midJ hfree, dJ2, prefM, midM hfree, dM2,
          midT hfree, dT2, midK hfree, dK1, pyStrip_append_newline]
      | rw [frontJM, frontJM, midJ hfree, dJ2, prefM, prefM, midM hfree, dM2,
          midT hfree, dT2, midK hfree, dK1, pyStrip_append_newline]
      | rw [frontJM, frontJT, midJ hfree, dJ2, prefM, frontMT, midM hfree, dM2,
          prefT, midT hfree, dT2, midK hfree, dK1, pyStrip_append_newline]
      | rw [frontJT, prefJ, midJ hfree, dJ2, frontMT, midM hfree, dM2,
          prefT, midT hfree, dT2, midK hfree, dK1, pyStrip_append_newline]
      | rw [frontJT, frontJM, midJ hfree, dJ2, frontMT, prefM, midM hfree, dM2,
          prefT, midT hfree, dT2, midK hfree, dK1, pyStrip_append_newline]
      | rw [frontJT, frontJT, midJ hfree, dJ2, frontMT, frontMT, midM hfree, dM2,
          prefT, prefT, midT hfree, dT2, midK hfree, dK1, pyStrip_append_newline]

/-! ## Character-preservation lemmas (claim C7)

Every stage of `strip_all_markdown_formatting` only deletes characters
(the one exception re-emits a newline), so a text without `\x7b` still has
no `\x7b` after stripping. -/

lemma removeAllAux_subset (p : List Char) :
    ∀ f s x, x ∈ removeAllAux p f s → x ∈ s := by
  intro f
  induction f with
  | zero => intro s x hx; exact hx
  | succ f ih =>
    intro s x hx
    cases s with
    | nil => simp [removeAllAux] at hx
    | cons c cs =>
      by_cases hc : p ≠ [] ∧ p.isPrefixOf (c :: cs)
      · simp only [removeAllAux, if_pos hc] at hx
        exact (List.drop_subset _ _) (ih _ x hx)
      · simp only [removeAllAux, if_neg hc] at hx
        rcases List.mem_cons.mp hx with h | h
        · exact h ▸ List.mem_cons_self c cs
        · exact List.mem_cons_of_mem c (ih _ x h)

lemma removeAll_subset (p s : List Char) {x : Char}
    (hx : x ∈ removeAll p s) : x ∈ s :=
  removeAllAux_subset p s.length s x hx

lemma scanRepl_subset (m : List Char → Option (List Char × List Char))
    (hm : ∀ cs e rest, m cs = some (e, rest) → e = [] ∧ ∀ x ∈ rest, x ∈ cs) :
    ∀ f s x, x ∈ scanRepl m f s → x ∈ s := by
  intro f
  induction f with
  | zero => intro s x hx; exact hx
  | succ f ih =>
    intro s x hx
    cases s with
    | nil => simp [scanRepl] at hx
    | cons c cs =>
      simp only [scanRepl] at hx
      cases hmc : m (c :: cs) with
      | none =>
        rw [hmc] at hx
        rcases List.mem_cons.mp hx with h | h
        · exact h ▸ List.mem_cons_self c cs
        · exact List.mem_cons_of_mem c (ih _ x h)
      | some er =>
        obtain ⟨e, rest⟩ := er
        obtain ⟨he, hrest⟩ := hm _ _ _ hmc
        rw [hmc] at hx
        subst he
        simp only [List.nil_append] at hx
        exact hrest x (ih _ x hx)

lemma pyStrip_subset {s : List Char} {x : Char} (hx : x ∈ pyStrip s) : x ∈ s := by
  unfold pyStrip pyStripLeft pyStripRight at hx
  have h1 := (List.dropWhile_sublist (l := (s.reverse.dropWhile isPyWs).reverse)
    (p := isPyWs)).subset hx
  have h2 := (List.dropWhile_sublist (l := s.reverse) (p := isPyWs)).subset
    (List.mem_reverse.mp h1)
  exact List.mem_reverse.mp h2

lemma removeEndTicks_mem {cs : List Char} {x : Char}
    (hx : x ∈ CFDirect.removeEndTicks cs) : x ∈ cs ∨ x = '\n' := by
  unfold CFDirect.removeEndTicks at hx
  split at hx
  · exact Or.inl ((List.take_subset _ _) hx)
  · split at hx
    · rcases List.mem_append.mp hx with h | h
      · exact Or.inl ((List.take_subset _ _) h)
      · simp at h
        exact Or.inr h
    · exact Or.inl hx

lemma mJsonTicks_shape :
    ∀ t e rest, CFDirect.mJsonTicks t = some (e, rest) →
      e = [] ∧ ∀ x ∈ rest, x ∈ t := by
  intro t e rest hm
  unfold CFDirect.mJsonTicks at hm
  split at hm
  · simp only [Option.some.injEq, Prod.mk.injEq] at hm
    obtain ⟨he, hrest⟩ := hm
    subst he
    subst hrest
    refine ⟨rfl, fun x hx => ?_⟩
    exact (List.drop_subset _ _)
      ((List.dropWhile_sublist (p := isPyWs)).subset hx)
  · exact absurd hm (by simp)

lemma mTicksWsJson_shape :
    ∀ t e rest, CFDirect.mTicksWsJson t = some (e, rest) →
      e = [] ∧ ∀ x ∈ rest, x ∈ t := by
  intro t e rest hm
  unfold CFDirect.mTicksWsJson at hm
  split at hm
  · simp only [] at hm
    split at hm
    · simp only [Option.some.injEq, Prod.mk.injEq] at hm
      obtain ⟨he, hrest⟩ := hm
      subst he
      subst hrest
      refine ⟨rfl, fun x hx => ?_⟩
      exact (List.drop_subset _ _)
        ((List.dropWhile_sublist (p := isPyWs)).subset
          ((List.drop_subset _ _)
            ((List.dropWhile_sublist (p := isPyWs)).subset hx)))
    · exact absurd hm (by simp)
  · exact absurd hm (by simp)

lemma mTicksWs_shape :
    ∀ t e rest, CFDirect.mTicksWs t = some (e, rest) →
      e = [] ∧ ∀ x ∈ rest, x ∈ t := by
  intro t e rest hm
  unfold CFDirect.mTicksWs at hm
  split at hm
  · simp only [Option.some.injEq, Prod.mk.injEq] at hm
    obtain ⟨he, hrest⟩ := hm
    subst he
    subst hrest
    refine ⟨rfl, fun x hx => ?_⟩
    exact (List.drop_subset _ _)
      ((List.dropWhile_sublist (p := isPyWs)).subset hx)
  · exact absurd hm (by simp)

lemma stripAllMarkdownL_no_brace {cs : List Char} (h : '{' ∉ cs) :
    '{' ∉ CFDirect.stripAllMarkdownL cs := by
  have hcont : cs.contains '{' = false := by
    rw [List.contains_eq_any_beq]
    simp only [List.any_eq_false]
    intro a ha
    simp only [beq_iff_eq]
    intro hax
    exact h (hax ▸ ha)
  unfold CFDirect.stripAllMarkdownL
  rw [hcont]
  simp only [Bool.and_false, Bool.false_eq_true, if_false]
  intro hmem
  have h1 := pyStrip_subset hmem
  have h2 := removeAll_subset _ _ h1
  rcases removeEndTicks_mem h2 with h3 | h3
  · have h4 := scanRepl_subset _ mTicksWs_shape _ _ _ h3
    have h5 := scanRepl_subset _ mTicksWsJson_shape _ _ _ h4
    have h6 := scanRepl_subset _ mJsonTicks_shape _ _ _ h5
    exact h h6
  · exact absurd h3 (by decide)

/-! ## A decoded object implies an opening brace in the input -/

lemma parseVal_obj_mem :
    ∀ f cs kvs r, parseVal f cs = some (Json.obj kvs, r) → '{' ∈ cs := by
  intro f cs kvs r h
  cases f with
  | zero => simp [parseVal] at h
  | succ f =>
    simp only [parseVal] at h
    cases hcs1 : cs.dropWhile isJsonWs with
    | nil => rw [hcs1] at h; simp at h
    | cons c rest =>
      rw [hcs1] at h
      dsimp only at h
      have hsub : '{' ∈ cs.dropWhile isJsonWs → '{' ∈ cs :=
        fun hx => (List.dropWhile_sublist (p := isJsonWs)).subset hx
      by_cases hc : c = '{'
      · subst hc
        exact hsub (hcs1 ▸ List.mem_cons_self _ _)
      · rw [if_neg hc] at h
        by_cases hb : c = '['
        · rw [if_pos hb] at h
          exfalso
          split at h
          · simp at h
          · cases he : parseElems f [] (rest.dropWhile isJsonWs) <;>
              simp [he] at h
        · rw [if_neg hb] at h
          by_cases hq : c = '"'
          · rw [if_pos hq] at h
            cases he : parseStringBody rest <;> simp [he] at h
          · rw [if_neg hq] at h
            by_cases ht : c = 't'
            · rw [if_pos ht] at h
              split at h <;> simp at h
            · rw [if_neg ht] at h
              by_cases hf2 : c = 'f'
              · rw [if_pos hf2] at h
                split at h <;> simp at h
              · rw [if_neg hf2] at h
                by_cases hn : c = 'n'
                · rw [if_pos hn] at h
                  split at h <;> simp at h
                · rw [if_neg hn] at h
                  cases he : parseNumber (c :: rest) <;> simp [he] at h

lemma json_loads_obj_mem {s : String} {kvs : List (String × Json)}
    (h : json_loads s = some (Json.obj kvs)) : '{' ∈ s.data := by
  unfold json_loads at h
  split at h
  · rename_i v rest heq
    split at h
    · injection h with hv
      subst hv
      exact parseVal_obj_mem _ _ _ _ heq
    · simp at h
  · simp at h

/-! ## Schema is threaded unchanged (claim C10) -/

lemma fix_numeric_snd (d : Json) (schema : Schema) :
    (CFDirect.fix_numeric_values d schema).2 = schema := by
  unfold CFDirect.fix_numeric_values
  repeat' split
  all_goals rfl

lemma returnFixed_snd (r : Json) (schema : Schema) :
    (CFDirect.returnFixed r schema).2 = schema := by
  cases hfx : CFDirect.fix_numeric_values r schema with
  | mk fst snd =>
    have h2 : snd = schema := by
      have := fix_numeric_snd r schema
      rw [hfx] at this
      exact this
    subst h2
    cases fst <;> simp [CFDirect.returnFixed, hfx]

lemma tailParseD_snd (jt : List Char) (schema : Schema) :
    (CFDirect.tailParseD jt schema).2 = schema := by
  unfold CFDirect.tailParseD
  repeat' split
  all_goals first | rfl | apply returnFixed_snd

lemma extract_core_snd (t : List Char) (schema : Schema) :
    (CFDirect.extract_core t schema).2 = schema := by
  unfold CFDirect.extract_core
  repeat' split
  all_goals first | rfl | apply returnFixed_snd | apply tailParseD_snd

lemma extractD_snd (text : String) (schema : Schema) :
    (CFDirect.extract_and_fix_json text schema).2 = schema :=
  extract_core_snd _ _

lemma fallbackFill_snd (schema : Schema) (p : Json) :
    (fallbackFill schema p).2 = schema := by
  unfold fallbackFill
  repeat' split
  all_goals rfl

lemma fallbackTailD_snd (raw : Option String) (schema : Schema) :
    (CFDirect.fallbackTail raw schema).2 = schema := by
  unfold CFDirect.fallbackTail
  split
  · rfl
  · split
    · rename_i e sch heq
      have h := extractD_snd
        (String.mk (CFDirect.stripAllMarkdownL (raw.getD "").data)) schema
      rw [heq] at h
      exact h
    · rename_i sch heq
      have h := extractD_snd
        (String.mk (CFDirect.stripAllMarkdownL (raw.getD "").data)) schema
      rw [heq] at h
      exact h
    · rename_i p sch heq
      have h := extractD_snd
        (String.mk (CFDirect.stripAllMarkdownL (raw.getD "").data)) schema
      rw [heq] at h
      rw [fallbackFill_snd]
      exact h

lemma fallbackD_snd (schema : Schema) (oracle : GenOracle) :
    (CFDirect.fallback_structured_response schema oracle).2 = schema :=
  fallbackTailD_snd _ _

lemma structuredD_snd (content : Json) (schema : Schema) (oracle : GenOracle) :
    (CFDirect.structured_response content schema oracle).2 = schema := by
  cases content with
  | str s =>
    simp only [CFDirect.structured_response]
    have h := extractD_snd (String.mk (CFDirect.stripAllMarkdownL s.data)) schema
    split
    · rename_i p sch heq
      rw [heq] at h
      split
      · exact h
      · rw [fallbackD_snd]
        exact h
    · rename_i sch heq
      rw [heq] at h
      rw [fallbackD_snd]
      exact h
    · rename_i e sch heq
      rw [heq] at h
      rw [fallbackD_snd]
      exact h
  | obj kvs => rfl
  | null => exact fallbackD_snd schema oracle
  | bool b => exact fallbackD_snd schema oracle
  | num q => exact fallbackD_snd schema oracle
  | arr l => exact fallbackD_snd schema oracle

lemma tailParseW_snd (jt : List Char) (schema : Schema) :
    (CFWorker.tailParseW jt schema).2 = schema := by
  unfold CFWorker.tailParseW
  repeat' split
  all_goals rfl

lemma extractW_snd (text : String) (schema : Schema) :
    (CFWorker.extract_and_fix_json text schema).2 = schema := by
  unfold CFWorker.extract_and_fix_json
  repeat' split
  all_goals first | rfl | apply tailParseW_snd

lemma fallbackTailW_snd (raw : Option String) (schema : Schema) :
    (CFWorker.fallbackTail raw schema).2 = schema := by
  unfold CFWorker.fallbackTail
  repeat' split
  all_goals first | rfl | apply fallbackFill_snd

lemma fallbackW_snd (schema : Schema) (oracle : GenOracle) :
    (CFWorker.fallback_structured_response schema oracle).2 = schema :=
  fallbackTailW_snd _ _

lemma structuredW_snd (content : Json) (schema : Schema) (oracle : GenOracle) :
    (CFWorker.structured_response content schema oracle).2 = schema := by
  cases content with
  | str s =>
    simp only [CFWorker.structured_response]
    have h := extractW_snd (String.mk (stripCodeBlockTildesL s.data)) schema
    split
    · rename_i p sch heq
      rw [heq] at h
      split
      · exact h
      · rw [fallbackW_snd]
        exact h
    · rename_i sch heq
      rw [heq] at h
      rw [fallbackW_snd]
      exact h
    · rename_i e sch heq
      rw [heq] at h
      rw [fallbackW_snd]
      exact h
  | obj kvs => rfl
  | null => exact fallbackW_snd schema oracle
  | bool b => exact fallbackW_snd schema oracle
  | num q => exact fallbackW_snd schema oracle
  | arr l => exact fallbackW_snd schema oracle

/-! ## Retry-loop and fallback-tail lemmas -/

lemma retryLoop_all_none {oracle : GenOracle} (h : ∀ i, oracle i = .ok none) :
    (fallback_retry_loop oracle).1 = none := by
  simp [fallback_retry_loop, retryLoopGo, h 0, h 1, h 2, truthyResp]

lemma fallbackTailD_untruthy {raw : Option String} (h : truthyResp raw = false)
    (schema : Schema) : CFDirect.fallbackTail raw schema = (.ok none, schema) := by
  unfold CFDirect.fallbackTail
  rw [h]
  rfl

lemma fallbackTailW_untruthy {raw : Option String} (h : truthyResp raw = false)
    (schema : Schema) : CFWorker.fallbackTail raw schema = (.ok none, schema) := by
  unfold CFWorker.fallbackTail
  rw [h]
  rfl

/-! ## `extract_and_fix_json` on a braceless text (claim C7) -/

lemma contains_false_of_not_mem {t : List Char} {c : Char} (h : c ∉ t) :
    t.contains c = false := by
  rw [List.contains_eq_any_beq]
  simp only [List.any_eq_false]
  intro a ha
  simp only [beq_iff_eq]
  intro hax
  exact h (hax ▸ ha)

lemma extract_core_no_brace {t : List Char} (ht : '{' ∉ t) {schema : Schema}
    (hne : schema ≠ []) (hp : (lookupStr schema "properties").isSome = true) :
    CFDirect.extract_core t schema = (.error .attrError, schema) ∨
      CFDirect.extract_core t schema = (.ok none, schema) := by
  unfold CFDirect.extract_core
  cases hl : json_loads (String.mk t) with
  | none =>
    right
    rw [contains_false_of_not_mem ht]
    rfl
  | some r =>
    left
    have hguard : (schema.isEmpty || (lookupStr schema "properties").isNone)
        = false := by
      have h1 : schema.isEmpty = false := by
        cases schema with
        | nil => exact absurd rfl hne
        | cons a l => rfl
      have h2 : (lookupStr schema "properties").isNone = false := by
        cases hlk : lookupStr schema "properties" with
        | none => rw [hlk] at hp; simp at hp
        | some j => rfl
      rw [h1, h2]
      rfl
    cases r with
    | obj kvs =>
      exfalso
      exact ht (json_loads_obj_mem hl)
    | null =>
      unfold CFDirect.returnFixed CFDirect.fix_numeric_values
      rw [hguard]
      rfl
    | bool b =>
      unfold CFDirect.returnFixed CFDirect.fix_numeric_values
      rw [hguard]
      rfl
    | num q =>
      unfold CFDirect.returnFixed CFDirect.fix_numeric_values
      rw [hguard]
      rfl
    | str s2 =>
      unfold CFDirect.returnFixed CFDirect.fix_numeric_values
      rw [hguard]
      rfl
    | arr l =>
      unfold CFDirect.returnFixed CFDirect.fix_numeric_values
      rw [hguard]
      rfl

/-! ## The placeholder fill (claims C2 and C4) -/

lemma fillNA_keys :
    ∀ (keys : List String) (pkvs : List (String × Json)),
      (fillNA keys pkvs).map Prod.fst = keys
  | [], _ => rfl
  | a :: rest, pkvs => by
    show a :: (fillNA rest pkvs).map Prod.fst = a :: rest
    rw [fillNA_keys rest pkvs]

lemma lookup_fillNA_mem {keys : List String} {pkvs : List (String × Json)}
    {k : String} (hk : k ∈ keys) :
    lookupStr (fillNA keys pkvs) k
      = some ((lookupStr pkvs k).getD (.str "n/a")) := by
  induction keys with
  | nil => simp at hk
  | cons a rest ih =>
    show lookupStr ((a, _) :: fillNA rest pkvs) k = _
    by_cases hak : a = k
    · subst hak
      show (if a = a then _ else _) = _
      rw [if_pos rfl]
      cases hpk : lookupStr pkvs a <;> simp
    · have hk2 : k ∈ rest := by
        rcases List.mem_cons.mp hk with h | h
        · exact absurd h.symm hak
        · exact h
      show (if a = k then _ else _) = _
      rw [if_neg hak]
      exact ih hk2

lemma lookup_fillNA_not_mem {keys : List String} {pkvs : List (String × Json)}
    {k : String} (hk : k ∉ keys) :
    lookupStr (fillNA keys pkvs) k = none := by
  induction keys with
  | nil => rfl
  | cons a rest ih =>
    have hak : a ≠ k := fun h => hk (h ▸ List.mem_cons_self a rest)
    have hk2 : k ∉ rest := fun h => hk (List.mem_cons_of_mem a h)
    show (if a = k then _ else _) = _
    rw [if_neg hak]
    exact ih hk2

/-! ## Numeric coercion on a well-formed schema (claim C5) -/

lemma coerceField_wf {props : List (String × Json)} {k : String} (v : Json)
    (hwf : ∀ j, lookupStr props k = some j → ∃ pd, j = .obj pd) :
    CFDirect.coerceField props k v = .ok (k, coerceFieldPure props k v) := by
  cases hlk : lookupStr props k with
  | none => simp [CFDirect.coerceField, coerceFieldPure, hlk]
  | some j =>
    obtain ⟨pd, rfl⟩ := hwf j hlk
    cases hlt : lookupStr pd "type" with
    | none => simp [CFDirect.coerceField, coerceFieldPure, hlk, hlt]
    | some tv =>
      cases tv with
      | str t =>
        by_cases ht : t = "number"
        · subst ht
          cases v <;> simp [CFDirect.coerceField, coerceFieldPure, hlk, hlt]
        · simp [CFDirect.coerceField, coerceFieldPure, hlk, hlt, ht]
      | null => simp [CFDirect.coerceField, coerceFieldPure, hlk, hlt]
      | bool b => simp [CFDirect.coerceField, coerceFieldPure, hlk, hlt]
      | num q => simp [CFDirect.coerceField, coerceFieldPure, hlk, hlt]
      | arr l => simp [CFDirect.coerceField, coerceFieldPure, hlk, hlt]
      | obj l => simp [CFDirect.coerceField, coerceFieldPure, hlk, hlt]

lemma coerceAll_wf {props : List (String × Json)} :
    ∀ (kvs : List (String × Json)),
      (∀ kv ∈ kvs, ∀ j, lookupStr props kv.1 = some j → ∃ pd, j = .obj pd) →
      CFDirect.coerceAll (.obj props) kvs
        = .ok (kvs.map fun kv => (kv.1, coerceFieldPure props kv.1 kv.2)) := by
  intro kvs
  induction kvs with
  | nil => intro _; rfl
  | cons kv rest ih =>
    intro hwf
    obtain ⟨k, v⟩ := kv
    simp only [CFDirect.coerceAll]
    rw [coerceField_wf v (hwf (k, v) (List.mem_cons_self _ _)),
      ih fun kv hkv => hwf kv (List.mem_cons_of_mem _ hkv)]
    rfl

lemma lookup_map_pure (f : String → Json → Json) :
    ∀ (kvs : List (String × Json)) (k : String),
      lookupStr (kvs.map fun kv => (kv.1, f kv.1 kv.2)) k
        = (lookupStr kvs k).map (f k) := by
  intro kvs
  induction kvs with
  | nil => intro k; rfl
  | cons kv rest ih =>
    intro k
    obtain ⟨k1, v1⟩ := kv
    show (if k1 = k then _ else _) = _
    by_cases hk1 : k1 = k
    · rw [if_pos hk1]
      show _ = (if k1 = k then some v1 else lookupStr rest k).map (f k)
      rw [if_pos hk1]
      subst hk1
      rfl
    · rw [if_neg hk1]
      show _ = (if k1 = k then some v1 else lookupStr rest k).map (f k)
      rw [if_neg hk1]
      exact ih k

/-! # Claim theorems -/

/-- Claim C6: extracting a completion whose content is already a mapping
returns that mapping unchanged, for any schema and any regeneration
collaborator, in both classes — no stripping, repair, coercion or filling
is applied. -/
theorem claim_C6 :
    ∀ (kvs : List (String × Json)) (schema : Schema) (oracle : GenOracle),
      CFDirect.structured_response (.obj kvs) schema oracle
          = (.ok (some (.obj kvs)), schema)
        ∧ CFWorker.structured_response (.obj kvs) schema oracle
          = (.ok (some (.obj kvs)), schema) :=
  fun _ _ _ => ⟨rfl, rfl⟩

/-- Claim C10: on every path of both classes the schema argument is
returned exactly as it was passed in — the pipeline never mutates it. -/
theorem claim_C10 :
    ∀ (content : Json) (schema : Schema) (oracle : GenOracle),
      (CFDirect.structured_response content schema oracle).2 = schema
        ∧ (CFWorker.structured_response content schema oracle).2 = schema :=
  fun c s o => ⟨structuredD_snd c s o, structuredW_snd c s o⟩

/-- Claim C9, counterexample: `strip_all_markdown_formatting` — one of the
fence-stripping functions the claim covers — on the bare-fenced input
returns `\x7b"a": 1\x7d`, having deleted the non-marker text
`see json: x ` before the first brace; the claim demands the input with
only the fence markers removed and trimmed. -/
theorem claim_C9_counterexample :
    CFDirect.strip_all_markdown_formatting
        "```\nsee json: x \x7b\"a\": 1\x7d\n```" = "\x7b\"a\": 1\x7d"
      ∧ CFDirect.strip_all_markdown_formatting
        "```\nsee json: x \x7b\"a\": 1\x7d\n```"
          ≠ "see json: x \x7b\"a\": 1\x7d" := by
  constructor
  · decide
  · decide

/-- Claim C9 (amended): the claim holds of `strip_code_block_tildes` (the
fence stripper shared by both classes and used on the worker client's
structured path and on all text generation): for every content with no
triple backtick, wrapped in one `json`, `markdown` or bare fence, or in
two such fences nested, the result is exactly the content trimmed.
`strip_all_markdown_formatting` (the direct client's structured path)
additionally deletes any text before the first `\x7b` whenever the input
mentions `json` and contains `\x7b`. -/
theorem claim_C9_amended :
    ∀ (f : Fence) (s : List Char), TripleFree s →
      strip_code_block_tildes (String.mk (wrapFence f s))
          = String.mk (pyStrip s)
        ∧ ∀ g : Fence,
          strip_code_block_tildes (String.mk (wrapFence f (wrapFence g s)))
            = String.mk (pyStrip s) := by
  intro f s hfree
  constructor
  · exact congrArg String.mk (stripWrap1 f s hfree)
  · intro g
    exact congrArg String.mk (stripWrap2 f g s hfree)

theorem claim_C9_witness :
    TripleFree ("\x7b\"a\": 1\x7d" : String).data
      ∧ strip_code_block_tildes
          (String.mk (wrapFence .json ("\x7b\"a\": 1\x7d" : String).data))
        = String.mk (pyStrip ("\x7b\"a\": 1\x7d" : String).data) :=
  ⟨by decide, (claim_C9_amended .json _ (by decide)).1⟩

/-- Claim C7: with the text-generation collaborator returning `None` on
every attempt and a raw input without any `\x7b` (and a schema that has a
`properties` entry, as the extractor's input contract requires), the
direct client's extractor returns `None`: every textual stage fails or is
skipped — a braceless text that still decodes as non-object JSON makes
`_fix_numeric_values` raise, which the outer handler also routes to the
fallback — and regeneration is exhausted. -/
theorem claim_C7 :
    ∀ (s : String) (schema : Schema) (oracle : GenOracle),
      '{' ∉ s.data → schema ≠ [] →
      (lookupStr schema "properties").isSome = true →
      (∀ i, oracle i = .ok none) →
      CFDirect.structured_response (.str s) schema oracle = (.ok none, schema) := by
  intro s schema oracle hbr hne hp hor
  have h1 : '{' ∉ CFDirect.stripAllMarkdownL s.data :=
    stripAllMarkdownL_no_brace hbr
  have h2 : '{' ∉ CFDirect.stripAllMarkdownL
      (String.mk (CFDirect.stripAllMarkdownL s.data)).data :=
    stripAllMarkdownL_no_brace h1
  have hfb : CFDirect.fallback_structured_response schema oracle
      = (.ok none, schema) := by
    unfold CFDirect.fallback_structured_response
    rw [retryLoop_all_none hor]
    exact @fallbackTailD_untruthy none rfl schema
  have hex : CFDirect.extract_and_fix_json
        (String.mk (CFDirect.stripAllMarkdownL s.data)) schema
        = (.error .attrError, schema)
      ∨ CFDirect.extract_and_fix_json
        (String.mk (CFDirect.stripAllMarkdownL s.data)) schema
        = (.ok none, schema) :=
    extract_core_no_brace h2 hne hp
  simp only [CFDirect.structured_response]
  rcases hex with hcase | hcase
  · rw [hcase]
    exact hfb
  · rw [hcase]
    exact hfb

theorem claim_C7_witness :
    '{' ∉ ("no json here" : String).data
      ∧ exSchema ≠ []
      ∧ (lookupStr exSchema "properties").isSome = true
      ∧ (∀ i, oracleAllNone i = .ok none)
      ∧ CFDirect.structured_response (.str "no json here") exSchema oracleAllNone
        = (.ok none, exSchema) := by
  refine ⟨by decide, List.cons_ne_nil _ _, rfl, fun i => rfl, ?_⟩
  exact claim_C7 "no json here" exSchema oracleAllNone (by decide)
    (List.cons_ne_nil _ _) rfl (fun i => rfl)

/-- Claim C5: for every field declared `type: number` whose parsed value is
a string, on a well-formed schema: if the string with all `$` and `,`
characters removed converts as a Python float, the coerced field equals
that float; otherwise the field keeps the original string; and in either
case `_fix_numeric_values` returns successfully (the extraction does not
fail over that field). -/
theorem claim_C5 :
    ∀ (kvs : List (String × Json)) (schema : Schema)
      (props pd : List (String × Json)) (k s : String),
      schema ≠ [] →
      lookupStr schema "properties" = some (.obj props) →
      (∀ kv ∈ kvs, ∀ j, lookupStr props kv.1 = some j → ∃ pd2, j = .obj pd2) →
      lookupStr props k = some (.obj pd) →
      lookupStr pd "type" = some (.str "number") →
      lookupStr kvs k = some (.str s) →
      ∃ kvs2,
        CFDirect.fix_numeric_values (.obj kvs) schema = (.ok (.obj kvs2), schema)
          ∧ (∀ q, pyFloat (String.mk (removeChar '$' (removeChar ',' s.data)))
                = some q → lookupStr kvs2 k = some (.num q))
          ∧ (pyFloat (String.mk (removeChar '$' (removeChar ',' s.data)))
                = none → lookupStr kvs2 k = some (.str s)) := by
  intro kvs schema props pd k s hne hprops hwf hpd htype hks
  have hguard : (schema.isEmpty || (lookupStr schema "properties").isNone)
      = false := by
    have h1 : schema.isEmpty = false := by
      cases schema with
      | nil => exact absurd rfl hne
      | cons a l => rfl
    rw [h1, hprops]
    rfl
  refine ⟨kvs.map fun kv => (kv.1, coerceFieldPure props kv.1 kv.2), ?_, ?_, ?_⟩
  · have h1 : schema.isEmpty = false := by
      cases schema with
      | nil => exact absurd rfl hne
      | cons a l => rfl
    simp only [CFDirect.fix_numeric_values, h1, hprops, Option.isNone_some,
      Bool.or_false, Bool.false_eq_true, if_false, coerceAll_wf kvs hwf]
  · intro q hq
    rw [lookup_map_pure _ kvs k, hks]
    simp [coerceFieldPure, hpd, htype, CFDirect.numCoerce, hq]
  · intro hq
    rw [lookup_map_pure _ kvs k, hks]
    simp [coerceFieldPure, hpd, htype, CFDirect.numCoerce, hq]

theorem claim_C5_witness :
    ∃ kvs2,
      CFDirect.fix_numeric_values
          (.obj [("salary_min", .str "$1,234.50")]) exSchema
        = (.ok (.obj kvs2), exSchema)
      ∧ lookupStr kvs2 "salary_min" = some (.num (mkRat 123450 100))
      ∧ (mkRat 123450 100 : ℚ) = 1234.5 := by
  obtain ⟨kvs2, h1, h2, -⟩ :=
    claim_C5 [("salary_min", .str "$1,234.50")] exSchema
      [("job_title", .obj [("type", .str "string")]),
       ("salary_min", .obj [("type", .str "number")])]
      [("type", .str "number")] "salary_min" "$1,234.50"
      (List.cons_ne_nil _ _) rfl
      (by
        intro kv hkv j hj
        rw [List.mem_singleton] at hkv
        subst hkv
        exact ⟨[("type", Json.str "number")], (Option.some.inj hj).symm⟩)
      rfl rfl rfl
  refine ⟨kvs2, h1, h2 _ rfl, ?_⟩
  rw [Rat.mkRat_eq_div]
  norm_num

/-- Claim C8: the regeneration stage issues at most 3 generation requests,
sequentially (`call 0`, `call 1`, `call 2`), stopping at the first truthy
response; an empty response or a raised exception counts as a failed
attempt; a fixed `sleep 1` separates attempts (with one trailing sleep
after a final failure, and no backoff); and when all 3 attempts fail the
stage — in both classes — returns `None`. -/
theorem claim_C8 :
    ∀ (oracle : GenOracle),
      ((fallback_retry_loop oracle).2 =
        if attemptTruthy (oracle 0) then [.call 0]
        else if attemptTruthy (oracle 1) then [.call 0, .sleep 1, .call 1]
        else if attemptTruthy (oracle 2) then
          [.call 0, .sleep 1, .call 1, .sleep 1, .call 2]
        else [.call 0, .sleep 1, .call 1, .sleep 1, .call 2, .sleep 1])
      ∧ (attemptTruthy (oracle 0) = true →
          (fallback_retry_loop oracle).1 = attemptText (oracle 0))
      ∧ (attemptTruthy (oracle 0) = false → attemptTruthy (oracle 1) = true →
          (fallback_retry_loop oracle).1 = attemptText (oracle 1))
      ∧ (attemptTruthy (oracle 0) = false → attemptTruthy (oracle 1) = false →
          attemptTruthy (oracle 2) = true →
          (fallback_retry_loop oracle).1 = attemptText (oracle 2))
      ∧ (attemptTruthy (oracle 0) = false → attemptTruthy (oracle 1) = false →
          attemptTruthy (oracle 2) = false →
          truthyResp (fallback_retry_loop oracle).1 = false
          ∧ ∀ schema : Schema,
              CFDirect.fallback_structured_response schema oracle
                = (.ok none, schema)
              ∧ CFWorker.fallback_structured_response schema oracle
                = (.ok none, schema)) := by
  intro oracle
  have hN : truthyResp none = false := rfl
  cases h0 : oracle 0 with
  | ok v0 =>
    rcases Bool.eq_false_or_eq_true (truthyResp v0) with t0 | t0
    case inl =>
      simp [fallback_retry_loop, retryLoopGo, attemptTruthy, attemptText,
        h0, t0, hN]
    case inr =>
      cases h1 : oracle 1 with
      | ok v1 =>
        rcases Bool.eq_false_or_eq_true (truthyResp v1) with t1 | t1
        case inl =>
          simp [fallback_retry_loop, retryLoopGo, attemptTruthy, attemptText,
            h0, t0, h1, t1, hN]
        case inr =>
          cases h2 : oracle 2 with
          | ok v2 =>
            rcases Bool.eq_false_or_eq_true (truthyResp v2) with t2 | t2
            case inl =>
              simp [fallback_retry_loop, retryLoopGo, attemptTruthy,
                attemptText, h0, t0, h1, t1, h2, t2, hN]
            case inr =>
              simp [fallback_retry_loop, retryLoopGo, attemptTruthy,
                attemptText, h0, t0, h1, t1, h2, t2,
                CFDirect.fallback_structured_response, CFDirect.fallbackTail,
                CFWorker.fallback_structured_response, CFWorker.fallbackTail, hN]
          | error e2 =>
            simp [fallback_retry_loop, retryLoopGo, attemptTruthy,
              attemptText, h0, t0, h1, t1, h2, hN,
              CFDirect.fallback_structured_response, CFDirect.fallbackTail,
              CFWorker.fallback_structured_response, CFWorker.fallbackTail]
      | error e1 =>
        cases h2 : oracle 2 with
        | ok v2 =>
          rcases Bool.eq_false_or_eq_true (truthyResp v2) with t2 | t2
          case inl =>
            simp [fallback_retry_loop, retryLoopGo, attemptTruthy,
              attemptText, h0, t0, h1, h2, t2, hN]
          case inr =>
            simp [fallback_retry_loop, retryLoopGo, attemptTruthy,
              attemptText, h0, t0, h1, h2, t2, hN,
              CFDirect.fallback_structured_response, CFDirect.fallbackTail,
              CFWorker.fallback_structured_response, CFWorker.fallbackTail]
        | error e2 =>
          simp [fallback_retry_loop, retryLoopGo, attemptTruthy,
            attemptText, h0, t0, h1, h2, hN,
            CFDirect.fallback_structured_response, CFDirect.fallbackTail,
            CFWorker.fallback_structured_response, CFWorker.fallbackTail]
  | error e0 =>
    cases h1 : oracle 1 with
    | ok v1 =>
      rcases Bool.eq_false_or_eq_true (truthyResp v1) with t1 | t1
      case inl =>
        simp [fallback_retry_loop, retryLoopGo, attemptTruthy, attemptText,
          h0, h1, t1, hN]
      case inr =>
        cases h2 : oracle 2 with
        | ok v2 =>
          rcases Bool.eq_false_or_eq_true (truthyResp v2) with t2 | t2
          case inl =>
            simp [fallback_retry_loop, retryLoopGo, attemptTruthy,
              attemptText, h0, h1, t1, h2, t2, hN]
          case inr =>
            simp [fallback_retry_loop, retryLoopGo, attemptTruthy,
              attemptText, h0, h1, t1, h2, t2, hN,
              CFDirect.fallback_structured_response, CFDirect.fallbackTail,
              CFWorker.fallback_structured_response, CFWorker.fallbackTail]
        | error e2 =>
          simp [fallback_retry_loop, retryLoopGo, attemptTruthy,
            attemptText, h0, h1, t1, h2, hN,
            CFDirect.fallback_structured_response, CFDirect.fallbackTail,
            CFWorker.fallback_structured_response, CFWorker.fallbackTail]
    | error e1 =>
      cases h2 : oracle 2 with
      | ok v2 =>
        rcases Bool.eq_false_or_eq_true (truthyResp v2) with t2 | t2
        case inl =>
          simp [fallback_retry_loop, retryLoopGo, attemptTruthy, attemptText,
            h0, h1, h2, t2, hN]
        case inr =>
          simp [fallback_retry_loop, retryLoopGo, attemptTruthy, attemptText,
            h0, h1, h2, t2, hN,
            CFDirect.fallback_structured_response, CFDirect.fallbackTail,
            CFWorker.fallback_structured_response, CFWorker.fallbackTail]
      | error e2 =>
        simp [fallback_retry_loop, retryLoopGo, attemptTruthy, attemptText,
          h0, h1, h2, hN,
          CFDirect.fallback_structured_response, CFDirect.fallbackTail,
          CFWorker.fallback_structured_response, CFWorker.fallbackTail]

theorem claim_C8_witness :
    (fallback_retry_loop oracleAllNone).2
      = [.call 0, .sleep 1, .call 1, .sleep 1, .call 2, .sleep 1]
    ∧ CFDirect.fallback_structured_response exSchema oracleAllNone
      = (.ok none, exSchema)
    ∧ CFWorker.fallback_structured_response exSchema oracleAllNone
      = (.ok none, exSchema) := by
  obtain ⟨htr, -, -, -, hfail⟩ := claim_C8 oracleAllNone
  have hf := hfail rfl rfl rfl
  exact ⟨by rw [htr]; rfl, (hf.2 exSchema).1, (hf.2 exSchema).2⟩

/-- Claim C2, counterexample: the fast direct-parse path returns the parsed
object as is — on input `\x7b"x": "y"\x7d` against a schema declaring
`job_title` and `salary_min`, the result's key set omits both declared
keys (and even carries a foreign key), so schema-completeness fails off
the regeneration path. -/
theorem claim_C2_counterexample :
    CFDirect.structured_response (.str "\x7b\"x\": \"y\"\x7d") exSchema
        oracleAllNone
      = (.ok (some (.obj [("x", .str "y")])), exSchema)
    ∧ propsKeysE exSchema = .ok ["job_title", "salary_min"]
    ∧ lookupStr [("x", Json.str "y")] "job_title" = none :=
  ⟨rfl, rfl, rfl⟩

/-- Claim C2 (amended): schema-completeness holds exactly on the
regeneration path: every successful object produced by
`_fallback_structured_response` has precisely the key list of
`schema["properties"]`; the fast direct-parse, boundary-extraction and
repair paths return the parsed object with its own keys. -/
theorem claim_C2_amended :
    ∀ (schema : Schema) (oracle : GenOracle) (kvs props : List (String × Json)),
      CFDirect.fallback_structured_response schema oracle
          = (.ok (some (.obj kvs)), schema) →
      lookupStr schema "properties" = some (.obj props) →
      kvs.map Prod.fst = props.map Prod.fst := by
  intro schema oracle kvs props h hprops
  unfold CFDirect.fallback_structured_response CFDirect.fallbackTail at h
  split at h
  · simp at h
  · split at h
    · simp at h
    · simp at h
    · rename_i p sch heq
      have hsch : sch = schema := by
        have h2 := extractD_snd (String.mk (CFDirect.stripAllMarkdownL
          ((fallback_retry_loop oracle).1.getD "").data)) schema
        rw [heq] at h2
        exact h2
      subst hsch
      unfold fallbackFill at h
      split at h
      · simp at h
      · split at h
        · simp at h
        · rename_i keys hkeys
          split at h
          · rename_i pkvs
            simp only [Prod.mk.injEq, Except.ok.injEq, Option.some.injEq,
              Json.obj.injEq] at h
            have hkeys2 : keys = props.map Prod.fst := by
              unfold propsKeysE at hkeys
              rw [hprops] at hkeys
              exact (Except.ok.inj hkeys).symm
            rw [← h.1, fillNA_keys, hkeys2]
          · simp at h

theorem claim_C2_witness :
    CFDirect.fallback_structured_response exSchema oraclePartial
      = (.ok (some (.obj [("job_title", .str "Dev"),
          ("salary_min", .str "n/a")])), exSchema)
    ∧ ([("job_title", Json.str "Dev"),
        ("salary_min", Json.str "n/a")].map Prod.fst
      = ([("job_title", Json.obj [("type", Json.str "string")]),
          ("salary_min", Json.obj [("type", Json.str "number")])].map
            Prod.fst)) :=
  ⟨rfl, claim_C2_amended exSchema oraclePartial _ _ rfl rfl⟩

/-- Claim C4, counterexample: when the fallback model returns the empty
object `\x7b\x7d`, the stage returns `None` — `if not parsed_response`
treats the empty dict as falsy — instead of the claimed all-`"n/a"`
placeholder fill. -/
theorem claim_C4_counterexample :
    CFDirect.fallback_structured_response exSchema oracleEmptyObj
      = (.ok none, exSchema)
    ∧ CFDirect.fallback_structured_response exSchema oracleEmptyObj
      ≠ (.ok (some (.obj [("job_title", .str "n/a"),
          ("salary_min", .str "n/a")])), exSchema) := by
  refine ⟨rfl, ?_⟩
  rw [show CFDirect.fallback_structured_response exSchema oracleEmptyObj
      = (.ok none, exSchema) from rfl]
  simp

/-- Claim C4 (amended): on the regeneration path, for every NONEMPTY
parseable object obtained from the fallback model's text (after the direct
client's extraction, which includes its numeric coercion), the stage's
result assigns `"n/a"` to every schema-property key missing from the
parsed object, the parsed object's value to every present key, and has no
key outside the schema's properties. -/
theorem claim_C4_amended :
    ∀ (schema : Schema) (oracle : GenOracle) (raw : String)
      (pkvs props : List (String × Json)),
      (fallback_retry_loop oracle).1 = some raw →
      raw ≠ "" →
      CFDirect.extract_and_fix_json
          (String.mk (CFDirect.stripAllMarkdownL raw.data)) schema
        = (.ok (some (.obj pkvs)), schema) →
      pkvs ≠ [] →
      lookupStr schema "properties" = some (.obj props) →
      CFDirect.fallback_structured_response schema oracle
        = (.ok (some (.obj (fillNA (props.map Prod.fst) pkvs))), schema)
      ∧ (∀ k, k ∈ props.map Prod.fst →
          lookupStr (fillNA (props.map Prod.fst) pkvs) k
            = some ((lookupStr pkvs k).getD (.str "n/a")))
      ∧ (∀ k, k ∉ props.map Prod.fst →
          lookupStr (fillNA (props.map Prod.fst) pkvs) k = none) := by
  intro schema oracle raw pkvs props hraw hne hex hpk hprops
  refine ⟨?_, fun k hk => lookup_fillNA_mem hk,
    fun k hk => lookup_fillNA_not_mem hk⟩
  have hie : raw.isEmpty = false := by
    cases hh : raw.isEmpty
    · rfl
    · exact absurd ((String.isEmpty_iff raw).mp hh) hne
  have ht : truthyResp (some raw) = true := by
    simp only [truthyResp, hie, Bool.not_false]
  have htp : jsonTruthy (.obj pkvs) = true := by
    cases pkvs with
    | nil => exact absurd rfl hpk
    | cons a l => rfl
  have hkeys : propsKeysE schema = .ok (props.map Prod.fst) := by
    unfold propsKeysE
    rw [hprops]
  unfold CFDirect.fallback_structured_response CFDirect.fallbackTail
  rw [hraw]
  rw [ht, Bool.not_true, if_neg Bool.false_ne_true]
  rw [Option.getD_some]
  rw [hex]
  show fallbackFill schema (.obj pkvs)
      = (.ok (some (.obj (fillNA (props.map Prod.fst) pkvs))), schema)
  unfold fallbackFill
  rw [htp]
  simp only [Bool.not_true, Bool.false_eq_true, if_false]
  rw [hkeys]

theorem claim_C4_witness :
    CFDirect.fallback_structured_response exSchema oraclePartial
      = (.ok (some (.obj (fillNA ["job_title", "salary_min"]
          [("job_title", Json.str "Dev")]))), exSchema)
    ∧ lookupStr (fillNA ["job_title", "salary_min"]
        [("job_title", Json.str "Dev")]) "salary_min"
      = some (Json.str "n/a") := by
  have h := claim_C4_amended exSchema oraclePartial
    "\x7b\"job_title\": \"Dev\"\x7d"
    [("job_title", Json.str "Dev")]
    [("job_title", Json.obj [("type", Json.str "string")]),
     ("salary_min", Json.obj [("type", Json.str "number")])]
    rfl (by decide) rfl (List.cons_ne_nil _ _) rfl
  exact ⟨h.1, (h.2.1 "salary_min" (by decide)).trans rfl⟩

/-- Claim C1, counterexample: with a raw input whose textual chain fails
and a fallback model that returns the JSON array text `[1]`, the parse
result of unexpected shape reaches `_fix_numeric_values` /
`parsed_response.items()` on the fallback path — which is not inside any
`try` — and an `AttributeError` propagates to the caller of
`structured_response`, in both classes. -/
theorem claim_C1_counterexample :
    CFDirect.structured_response (.str "x") exSchema oracleArray
      = (.error .attrError, exSchema)
    ∧ CFWorker.structured_response (.str "x") exSchema oracleArray
      = (.error .attrError, exSchema) :=
  ⟨rfl, rfl⟩

/-- Claim C1 (amended): every exception that escapes `structured_response`
originates in the fallback stage: whenever `_fallback_structured_response`
itself returns without raising, `structured_response` returns without
raising (a mapping or `None`) — all exceptions on the primary parse path
are caught and routed to the fallback. -/
theorem claim_C1_amended :
    ∀ (content : Json) (schema : Schema) (oracle : GenOracle)
      (rD rW : Option Json),
      (CFDirect.fallback_structured_response schema oracle = (.ok rD, schema) →
        ∃ r2, CFDirect.structured_response content schema oracle
          = (.ok r2, schema))
      ∧ (CFWorker.fallback_structured_response schema oracle = (.ok rW, schema) →
        ∃ r2, CFWorker.structured_response content schema oracle
          = (.ok r2, schema)) := by
  intro content schema oracle rD rW
  constructor
  · intro hfb
    cases content with
    | obj kvs => exact ⟨some (.obj kvs), rfl⟩
    | str s =>
      simp only [CFDirect.structured_response]
      split
      · rename_i p sch heq
        have hsch : sch = schema := by
          have h2 := extractD_snd
            (String.mk (CFDirect.stripAllMarkdownL s.data)) schema
          rw [heq] at h2
          exact h2
        subst hsch
        split
        · exact ⟨some p, rfl⟩
        · exact ⟨rD, hfb⟩
      · rename_i sch heq
        have hsch : sch = schema := by
          have h2 := extractD_snd
            (String.mk (CFDirect.stripAllMarkdownL s.data)) schema
          rw [heq] at h2
          exact h2
        subst hsch
        exact ⟨rD, hfb⟩
      · rename_i e sch heq
        have hsch : sch = schema := by
          have h2 := extractD_snd
            (String.mk (CFDirect.stripAllMarkdownL s.data)) schema
          rw [heq] at h2
          exact h2
        subst hsch
        exact ⟨rD, hfb⟩
    | null => exact ⟨rD, hfb⟩
    | bool b => exact ⟨rD, hfb⟩
    | num q => exact ⟨rD, hfb⟩
    | arr l => exact ⟨rD, hfb⟩
  · intro hfb
    cases content with
    | obj kvs => exact ⟨some (.obj kvs), rfl⟩
    | str s =>
      simp only [CFWorker.structured_response]
      split
      · rename_i p sch heq
        have hsch : sch = schema := by
          have h2 := extractW_snd
            (String.mk (stripCodeBlockTildesL s.data)) schema
          rw [heq] at h2
          exact h2
        subst hsch
        split
        · exact ⟨some p, rfl⟩
        · exact ⟨rW, hfb⟩
      · rename_i sch heq
        have hsch : sch = schema := by
          have h2 := extractW_snd
            (String.mk (stripCodeBlockTildesL s.data)) schema
          rw [heq] at h2
          exact h2
        subst hsch
        exact ⟨rW, hfb⟩
      · rename_i e sch heq
        have hsch : sch = schema := by
          have h2 := extractW_snd
            (String.mk (stripCodeBlockTildesL s.data)) schema
          rw [heq] at h2
          exact h2
        subst hsch
        exact ⟨rW, hfb⟩
    | null => exact ⟨rW, hfb⟩
    | bool b => exact ⟨rW, hfb⟩
    | num q => exact ⟨rW, hfb⟩
    | arr l => exact ⟨rW, hfb⟩

theorem claim_C1_witness :
    CFDirect.fallback_structured_response exSchema oracleAllNone
      = (.ok none, exSchema)
    ∧ (∃ r2, CFDirect.structured_response (.str "x") exSchema oracleAllNone
        = (.ok r2, exSchema))
    ∧ (∃ r2, CFWorker.structured_response (.str "x") exSchema oracleAllNone
        = (.ok r2, exSchema)) := by
  refine ⟨rfl, ?_, ?_⟩
  · exact (claim_C1_amended (.str "x") exSchema oracleAllNone none none).1 rfl
  · exact (claim_C1_amended (.str "x") exSchema oracleAllNone none none).2 rfl

/-- Claim C3, counterexample: on the spec's scenario input neither client
produces `salary_min = 100000.0`.  The worker client — the only one with
field-level completion — recovers the object but leaves the salary as the
original string `"$100,000"` (it has no numeric coercion), and the direct
client's textual chain — the only one with numeric coercion — has no
field-level completion and yields `None` for this input. -/
theorem claim_C3_counterexample :
    CFWorker.structured_response (.str exTruncated) exSchema oracleAllNone
      = (.ok (some (.obj [("job_title", .str "Engineer"),
          ("salary_min", .str "$100,000")])), exSchema)
    ∧ (∀ q : ℚ, Json.str "$100,000" ≠ Json.num q)
    ∧ CFDirect.extract_and_fix_json exTruncated exSchema
      = (.ok none, exSchema) :=
  ⟨rfl, fun _ h => Json.noConfusion h, rfl⟩

/-- Claim C3 (amended): on the scenario input, the worker client returns
`\x7b"job_title": "Engineer", "salary_min": "$100,000"\x7d` — boundary
extraction plus field-level completion recover the truncated object, but
no numeric coercion is applied on that path — while the direct client
(whose chain has the coercion but no field-level completion) extracts
nothing from the text and, with regeneration exhausted, returns `None`. -/
theorem claim_C3_amended :
    CFWorker.structured_response (.str exTruncated) exSchema oracleAllNone
      = (.ok (some (.obj [("job_title", .str "Engineer"),
          ("salary_min", .str "$100,000")])), exSchema)
    ∧ CFDirect.structured_response (.str exTruncated) exSchema oracleAllNone
      = (.ok none, exSchema) :=
  ⟨rfl, rfl⟩
